import Mathlib

/-!
# android/log.h macro layer and the C wrapper of libmetrics

The header `include/android/log.h` is a set of preprocessor macros over four
backend entry points; `metrics/c_metrics_library.cc` is a C-linkage wrapper
around a `MetricsLibrary` object.  The macros are embedded as functions that
build the C fragment they expand to (a small expression/statement syntax with
an evaluator); the wrapper functions are embedded over an explicit heap.
-/

namespace AndroidLog

/-! ## Values, backend calls and the observable world -/

/-- Run-time values of the C fragment: integers, the null pointer, a pointer to
a NUL-terminated string, and the result of a `void` expression. -/
inductive Val where
  | int (n : Int)
  | null
  | str (s : String)
  | void
  deriving DecidableEq, Repr

/-- One recorded call of a backend entry point, with its evaluated arguments. -/
structure Call where
  fn : String
  args : List Val
  deriving DecidableEq, Repr

/-- What a call site can observe: the caller's own state, the backend calls made
so far, and whether `__android_log_assert` (declared `__noreturn__`) has ended
the process. -/
structure World (σ : Type) where
  user : σ
  trace : List Call
  aborted : Bool
  deriving DecidableEq, Repr

/-- An expression written by the caller: its spelling at the call site (what
`#` stringifies when the macro invoked has it as operand), its spelling after
macro expansion (what `#` stringifies once the expression has been handed on
as an ordinary macro argument), and its effect on the caller's state together
with its value. -/
structure Src (σ : Type) where
  text : String
  expanded : String
  run : σ → Val × σ

/-- The expression as an inner macro receives it from an outer one: an ordinary
macro argument is macro-expanded before it is substituted, so its spelling is
the expanded one from then on. -/
def Src.prescanned {σ : Type} (a : Src σ) : Src σ :=
  { text := a.expanded, expanded := a.expanded, run := a.run }

/-- The order in which a build evaluates the arguments of a call, which C
leaves unspecified: for a call of the function `f` with `n` arguments, the
argument positions in the order of their evaluation, each position once.  The
order may differ from one function or argument count to the next; an argument
is evaluated as a whole. -/
structure ArgOrder where
  seq : String → Nat → List Nat
  perm : ∀ f n, (seq f n).Perm (List.range n)

/-- The order of a build that evaluates arguments from the first to the last. -/
def leftToRight : ArgOrder where
  seq := fun _ n => List.range n
  perm := fun _ _ => List.Perm.refl _

/-- The order of a build that evaluates arguments from the last to the first. -/
def rightToLeft : ArgOrder where
  seq := fun _ n => (List.range n).reverse
  perm := fun _ n => List.reverse_perm (List.range n)

/-- The evaluations `ths`, one per argument position, run at the positions
`ord` one after the other: each position evaluated with the value it gave, and
the state after the last one. -/
def runSeq {ω : Type} (ths : List (ω → Val × ω)) : List Nat → ω → List (Nat × Val) × ω
  | [], w => ([], w)
  | i :: rest, w =>
    match ths[i]? with
    | some th =>
      let r := th w
      let q := runSeq ths rest r.2
      ((i, r.1) :: q.1, q.2)
    | none => runSeq ths rest w

/-- The values of `n` argument positions, by position. -/
def valuesOf (n : Nat) (ps : List (Nat × Val)) : List Val :=
  (List.range n).map fun i => (ps.lookup i).getD .void

/-- The argument values, by position, and the state after the arguments have
been evaluated in the order `ord`. -/
def runOrdered {ω : Type} (ths : List (ω → Val × ω)) (ord : List Nat) (w : ω) : List Val × ω :=
  (valuesOf ths.length (runSeq ths ord w).1, (runSeq ths ord w).2)

/-- The C expressions the macros of the header expand to. -/
inductive CExpr (σ : Type) where
  /-- An integer constant. -/
  | lit (n : Int)
  /-- The constant `NULL`. -/
  | null
  /-- A string literal. -/
  | str (s : String)
  /-- A caller-written expression. -/
  | user (a : Src σ)
  /-- A function call `f(args)`. -/
  | call (f : String) (args : List (CExpr σ))
  /-- The cast `(void)e`. -/
  | castVoid (e : CExpr σ)
  /-- The conditional `c ? t : e`. -/
  | ternary (c t e : CExpr σ)
  /-- The comparison `a != b`; the header only compares with the constant `0`,
  so the order in which the two operands are evaluated makes no difference. -/
  | ne (a b : CExpr σ)
  /-- The conjunction `a && b`. -/
  | land (a b : CExpr σ)
  /-- The dereference `*e` of a character pointer. -/
  | deref (e : CExpr σ)

/-- The statements the macros of the header expand to or guard. -/
inductive CStmt (σ : Type) where
  /-- An expression statement `e;`. -/
  | expr (e : CExpr σ)
  /-- A caller-written statement. -/
  | work (f : σ → σ)
  /-- The statement `if (c) s`. -/
  | ifThen (c : CExpr σ) (s : CStmt σ)
  /-- A compound statement. -/
  | block (ss : List (CStmt σ))
  /-- The statement `do s while (0)`. -/
  | doWhile0 (s : CStmt σ)

/-- Return values of the backend entry points, by function name and arguments. -/
abbrev Backend := String → List Val → Int

/-- Whether a scalar compares equal to zero (`0`, the null pointer). -/
def Val.isZero : Val → Bool
  | .int n => n == 0
  | .null => true
  | .str _ => false
  | .void => true

/-- C equality of two scalars. -/
def Val.ceq (x y : Val) : Bool :=
  (x.isZero && y.isZero) || x == y

/-- The bytes (UTF-8) of a string up to its terminator. -/
def cBytes (s : String) : List UInt8 :=
  (s.data.flatMap String.utf8EncodeChar).takeWhile (fun b => b != 0)

/-- The libc function `strlen`. -/
def strlen (s : String) : Nat := (cBytes s).length

/-- The first byte a character pointer points to. -/
def Val.derefByte : Val → Val
  | .str s => .int ((cBytes s).headD 0).toNat
  | _ => .int 0

/-- The effect of calling `f` on evaluated arguments: `strlen` is pure, the
compiler builtin `__builtin_expect(e, c)` is `e`, `__android_log_assert` does
not return, every other function is a backend entry point whose call is
recorded and whose result the backend decides. -/
def perform {σ : Type} (B : Backend) (f : String) (vs : List Val) (w : World σ) :
    Val × World σ :=
  if f = "strlen" then
    match vs with
    | [.str s] => (.int (strlen s), w)
    | _ => (.int 0, w)
  else if f = "__builtin_expect" then
    (vs.headD .void, w)
  else if f = "__android_log_assert" then
    (.void, { w with trace := w.trace ++ [⟨f, vs⟩], aborted := true })
  else
    (.int (B f vs), { w with trace := w.trace ++ [⟨f, vs⟩] })

mutual
/-- Evaluation of an expression in a build with the argument order `O`; nothing
is evaluated once the process has been ended. -/
def evalExpr {σ : Type} (B : Backend) (O : ArgOrder) : CExpr σ → World σ → Val × World σ
  | .lit n, w => (.int n, w)
  | .null, w => (.null, w)
  | .str s, w => (.str s, w)
  | .user a, w =>
    if w.aborted then (.void, w)
    else ((a.run w.user).1, { w with user := (a.run w.user).2 })
  | .call f args, w =>
    let r := runOrdered (evalThunks B O args) (O.seq f args.length) w
    if r.2.aborted then (.void, r.2) else perform B f r.1 r.2
  | .castVoid e, w => (.void, (evalExpr B O e w).2)
  | .ternary c t e, w =>
    let r := evalExpr B O c w
    if r.1.isZero then evalExpr B O e r.2 else evalExpr B O t r.2
  | .ne a b, w =>
    let r := evalExpr B O a w
    let q := evalExpr B O b r.2
    (.int (if r.1.ceq q.1 then 0 else 1), q.2)
  | .land a b, w =>
    let r := evalExpr B O a w
    if r.1.isZero then (.int 0, r.2)
    else
      let q := evalExpr B O b r.2
      (.int (if q.1.isZero then 0 else 1), q.2)
  | .deref e, w =>
    let r := evalExpr B O e w
    (r.1.derefByte, r.2)
/-- The evaluations of the arguments of a call, one per position. -/
def evalThunks {σ : Type} (B : Backend) (O : ArgOrder) :
    List (CExpr σ) → List (World σ → Val × World σ)
  | [] => []
  | e :: es => (fun w => evalExpr B O e w) :: evalThunks B O es
end

mutual
/-- Execution of a statement. -/
def exec {σ : Type} (B : Backend) (O : ArgOrder) : CStmt σ → World σ → World σ
  | .expr e, w => (evalExpr B O e w).2
  | .work f, w => if w.aborted then w else { w with user := f w.user }
  | .ifThen c s, w =>
    let r := evalExpr B O c w
    if r.1.isZero then r.2 else exec B O s r.2
  | .block ss, w => execList B O ss w
  | .doWhile0 s, w => exec B O s w
/-- Execution of a statement sequence. -/
def execList {σ : Type} (B : Backend) (O : ArgOrder) : List (CStmt σ) → World σ → World σ
  | [], w => w
  | s :: ss, w => execList B O ss (exec B O s w)
end

/-! ## Build configuration and the priority enumeration -/

/-- The preprocessor state a translation unit includes the header with. -/
structure Config where
  /-- The value of `LOG_NDEBUG` when the including file defines it. -/
  logNdebug : Option Int
  /-- Whether `NDEBUG` is defined. -/
  ndebug : Bool
  /-- The ambient `LOG_TAG`: `NULL` or a string. -/
  logTag : Option String
  /-- The value of `__ANDROID_API__` when it is defined. -/
  androidApi : Option Int
  /-- The value of `__ANDROID_USE_LIBLOG_LOGGABLE_INTERFACE` when the including
  file defines it. -/
  loggableInterface : Option Int
  deriving DecidableEq, Repr

/-- Value of `LOG_NDEBUG` after the `#ifndef LOG_NDEBUG` block. -/
def LOG_NDEBUG (cfg : Config) : Int :=
  match cfg.logNdebug with
  | some v => v
  | none => if cfg.ndebug then 1 else 0

/-- Value of `__ANDROID_USE_LIBLOG_LOGGABLE_INTERFACE` after its `#ifndef` block. -/
def __ANDROID_USE_LIBLOG_LOGGABLE_INTERFACE (cfg : Config) : Int :=
  match cfg.loggableInterface with
  | some v => v
  | none =>
    match cfg.androidApi with
    | none => 2
    | some api => if api > 24 then 2 else if api > 22 then 1 else 0

/-- The enumerators of `android_LogPriority`. -/
inductive android_LogPriority where
  | ANDROID_LOG_UNKNOWN
  | ANDROID_LOG_DEFAULT
  | ANDROID_LOG_VERBOSE
  | ANDROID_LOG_DEBUG
  | ANDROID_LOG_INFO
  | ANDROID_LOG_WARN
  | ANDROID_LOG_ERROR
  | ANDROID_LOG_FATAL
  | ANDROID_LOG_SILENT
  deriving DecidableEq, Repr

open android_LogPriority

/-- The enumerator list of the `typedef enum`, in declaration order, each with
its initialiser when it has one. -/
def android_LogPriority.declared : List (android_LogPriority × Option Int) :=
  [ (ANDROID_LOG_UNKNOWN, some 0),
    (ANDROID_LOG_DEFAULT, none),
    (ANDROID_LOG_VERBOSE, none),
    (ANDROID_LOG_DEBUG, none),
    (ANDROID_LOG_INFO, none),
    (ANDROID_LOG_WARN, none),
    (ANDROID_LOG_ERROR, none),
    (ANDROID_LOG_FATAL, none),
    (ANDROID_LOG_SILENT, none) ]

/-- The values C gives to an enumerator list: an initialiser is taken as is, an
enumerator without one is the previous value plus one (zero for the first). -/
def enumValues {α : Type} : Int → List (α × Option Int) → List (α × Int)
  | _, [] => []
  | _, (x, some v) :: rest => (x, v) :: enumValues (v + 1) rest
  | next, (x, none) :: rest => (x, next) :: enumValues (next + 1) rest

/-- The integer value of a priority. -/
def android_LogPriority.toInt (p : android_LogPriority) : Int :=
  ((enumValues 0 android_LogPriority.declared).lookup p).getD 0

/-! ## Macro arguments as token sequences -/

/-- A token of a macro argument list: a top-level comma, or a comma-free run of
tokens forming one expression. -/
inductive Tok (σ : Type) where
  | comma
  | arg (e : CExpr σ)

/-- The arguments of a macro invocation or function call: the token sequence
between the parentheses, cut at its top-level commas. -/
def splitArgs {σ : Type} : List (Tok σ) → List (List (Tok σ))
  | [] => [[]]
  | .comma :: ts => [] :: splitArgs ts
  | .arg e :: ts =>
    match splitArgs ts with
    | [] => [[.arg e]]
    | a :: rest => (.arg e :: a) :: rest

/-- The token sequence of several arguments: the arguments with a comma between
neighbours. -/
def joinArgs {σ : Type} : List (List (Tok σ)) → List (Tok σ)
  | [] => []
  | [a] => a
  | a :: b :: rest => a ++ .comma :: joinArgs (b :: rest)

/-- The token sequence `a1 , a2 , ... , an` of a list of expressions. -/
def pack {σ : Type} (es : List (CExpr σ)) : List (Tok σ) :=
  joinArgs (es.map fun e => [.arg e])

/-- The replacement `, ## __VA_ARGS__`: the comma is deleted when the variadic
arguments are absent or empty, and kept in front of them otherwise. -/
def commaPaste {σ : Type} : List (Tok σ) → List (Tok σ)
  | [] => []
  | t :: ts => .comma :: t :: ts

/-- The expressions of a list of arguments, when each argument is exactly one
expression. -/
def argExprs {σ : Type} : List (List (Tok σ)) → Option (List (CExpr σ))
  | [] => some []
  | [.arg e] :: rest => (argExprs rest).map fun es => e :: es
  | _ :: _ => none

/-- The expressions of a well-formed argument list (`f()` has none). -/
def parseArgs {σ : Type} (ts : List (Tok σ)) : Option (List (CExpr σ)) :=
  match ts with
  | [] => some []
  | _ => argExprs (splitArgs ts)

/-- The call `f(ts)`, when `ts` is a well-formed argument list. -/
def callOf {σ : Type} (f : String) (ts : List (Tok σ)) : Option (CExpr σ) :=
  (parseArgs ts).map (CExpr.call f)

/-! ## The macros of `android/log.h`

A macro the caller invokes takes its named arguments as expressions and its
variadic arguments as the token sequence `__VA_ARGS__` stands for; the result
is `none` when the expansion is not a well-formed expression.  The two helper
macros `__android_second` and `__android_rest` and `android_printAssert` are
only invoked from replacement lists, on a token sequence whose arguments are
delimited after `__VA_ARGS__` has been substituted: they take that sequence. -/

/-- Macro `__predict_false(exp)`: `__builtin_expect((exp) != 0, 0)`. -/
def __predict_false {σ : Type} (exp : CExpr σ) : CExpr σ :=
  .call "__builtin_expect" [.ne exp (.lit 0), .lit 0]

/-- The expression `LOG_TAG` stands for. -/
def LOG_TAG {σ : Type} (cfg : Config) : CExpr σ :=
  match cfg.logTag with
  | none => .null
  | some s => .str s

/-- Macro `android_printLog(prio, tag, ...)`:
`__android_log_print(prio, tag, __VA_ARGS__)`. -/
def android_printLog {σ : Type} (prio tag : CExpr σ) (va : List (Tok σ)) : Option (CExpr σ) :=
  callOf "__android_log_print" (.arg prio :: .comma :: .arg tag :: .comma :: va)

/-- Macro `LOG_PRI(priority, tag, ...)`:
`android_printLog(priority, tag, __VA_ARGS__)`. -/
def LOG_PRI {σ : Type} (priority tag : CExpr σ) (va : List (Tok σ)) : Option (CExpr σ) :=
  android_printLog priority tag va

/-- Macro `ALOG(priority, tag, ...)`:
`LOG_PRI(ANDROID_##priority, tag, __VA_ARGS__)`.  The argument `priority` is
given by the enumerator that `ANDROID_##priority` names. -/
def ALOG {σ : Type} (priority : android_LogPriority) (tag : CExpr σ) (va : List (Tok σ)) :
    Option (CExpr σ) :=
  LOG_PRI (.lit priority.toInt) tag va

/-- Macro `__ALOGV(...)`: `((void)ALOG(LOG_VERBOSE, LOG_TAG, __VA_ARGS__))`. -/
def __ALOGV {σ : Type} (cfg : Config) (va : List (Tok σ)) : Option (CExpr σ) :=
  (ALOG ANDROID_LOG_VERBOSE (LOG_TAG cfg) va).map .castVoid

/-- Macro `ALOGV(...)`: under `LOG_NDEBUG` it is
`do { if (0) { __ALOGV(__VA_ARGS__); } } while (0)`, otherwise
`__ALOGV(__VA_ARGS__)`, here as the statement `ALOGV(...);`. -/
def ALOGV {σ : Type} (cfg : Config) (va : List (Tok σ)) : Option (CStmt σ) :=
  if LOG_NDEBUG cfg ≠ 0 then
    (__ALOGV cfg va).map fun e =>
      .doWhile0 (.block [.ifThen (.lit 0) (.block [.expr e])])
  else
    (__ALOGV cfg va).map .expr

/-- Macro `ALOGV_IF(cond, ...)`: under `LOG_NDEBUG` it is `((void)0)`, otherwise
`( (__predict_false(cond)) ? ((void)ALOG(LOG_VERBOSE, LOG_TAG, __VA_ARGS__)) : (void)0 )`. -/
def ALOGV_IF {σ : Type} (cfg : Config) (cond : CExpr σ) (va : List (Tok σ)) :
    Option (CExpr σ) :=
  if LOG_NDEBUG cfg ≠ 0 then some (.castVoid (.lit 0))
  else
    (ALOG ANDROID_LOG_VERBOSE (LOG_TAG cfg) va).map fun e =>
      .ternary (__predict_false cond) (.castVoid e) (.castVoid (.lit 0))

/-- Macro `ALOGD(...)`: `((void)ALOG(LOG_DEBUG, LOG_TAG, __VA_ARGS__))`. -/
def ALOGD {σ : Type} (cfg : Config) (va : List (Tok σ)) : Option (CExpr σ) :=
  (ALOG ANDROID_LOG_DEBUG (LOG_TAG cfg) va).map .castVoid

/-- Macro `ALOGD_IF(cond, ...)`:
`( (__predict_false(cond)) ? ((void)ALOG(LOG_DEBUG, LOG_TAG, __VA_ARGS__)) : (void)0 )`. -/
def ALOGD_IF {σ : Type} (cfg : Config) (cond : CExpr σ) (va : List (Tok σ)) :
    Option (CExpr σ) :=
  (ALOG ANDROID_LOG_DEBUG (LOG_TAG cfg) va).map fun e =>
    .ternary (__predict_false cond) (.castVoid e) (.castVoid (.lit 0))

/-- Macro `ALOGI(...)`: `((void)ALOG(LOG_INFO, LOG_TAG, __VA_ARGS__))`. -/
def ALOGI {σ : Type} (cfg : Config) (va : List (Tok σ)) : Option (CExpr σ) :=
  (ALOG ANDROID_LOG_INFO (LOG_TAG cfg) va).map .castVoid

/-- Macro `ALOGI_IF(cond, ...)`:
`( (__predict_false(cond)) ? ((void)ALOG(LOG_INFO, LOG_TAG, __VA_ARGS__)) : (void)0 )`. -/
def ALOGI_IF {σ : Type} (cfg : Config) (cond : CExpr σ) (va : List (Tok σ)) :
    Option (CExpr σ) :=
  (ALOG ANDROID_LOG_INFO (LOG_TAG cfg) va).map fun e =>
    .ternary (__predict_false cond) (.castVoid e) (.castVoid (.lit 0))

/-- Macro `ALOGW(...)`: `((void)ALOG(LOG_WARN, LOG_TAG, __VA_ARGS__))`. -/
def ALOGW {σ : Type} (cfg : Config) (va : List (Tok σ)) : Option (CExpr σ) :=
  (ALOG ANDROID_LOG_WARN (LOG_TAG cfg) va).map .castVoid

/-- Macro `ALOGW_IF(cond, ...)`:
`( (__predict_false(cond)) ? ((void)ALOG(LOG_WARN, LOG_TAG, __VA_ARGS__)) : (void)0 )`. -/
def ALOGW_IF {σ : Type} (cfg : Config) (cond : CExpr σ) (va : List (Tok σ)) :
    Option (CExpr σ) :=
  (ALOG ANDROID_LOG_WARN (LOG_TAG cfg) va).map fun e =>
    .ternary (__predict_false cond) (.castVoid e) (.castVoid (.lit 0))

/-- Macro `ALOGE(...)`: `((void)ALOG(LOG_ERROR, LOG_TAG, __VA_ARGS__))`. -/
def ALOGE {σ : Type} (cfg : Config) (va : List (Tok σ)) : Option (CExpr σ) :=
  (ALOG ANDROID_LOG_ERROR (LOG_TAG cfg) va).map .castVoid

/-- Macro `ALOGE_IF(cond, ...)`:
`( (__predict_false(cond)) ? ((void)ALOG(LOG_ERROR, LOG_TAG, __VA_ARGS__)) : (void)0 )`. -/
def ALOGE_IF {σ : Type} (cfg : Config) (cond : CExpr σ) (va : List (Tok σ)) :
    Option (CExpr σ) :=
  (ALOG ANDROID_LOG_ERROR (LOG_TAG cfg) va).map fun e =>
    .ternary (__predict_false cond) (.castVoid e) (.castVoid (.lit 0))

/-! ### Assertions -/

/-- Macro `__android_second(dummy, second, ...)`: `second`.  It needs at least
two arguments. -/
def __android_second {σ : Type} (ts : List (Tok σ)) : Option (List (Tok σ)) :=
  match splitArgs ts with
  | _dummy :: second :: _ => some second
  | _ => none

/-- Macro `__android_rest(first, ...)`: `, ## __VA_ARGS__`. -/
def __android_rest {σ : Type} (ts : List (Tok σ)) : List (Tok σ) :=
  match splitArgs ts with
  | _first :: rest => commaPaste (joinArgs rest)
  | [] => []

/-- Macro `android_printAssert(cond, tag, ...)`:
`__android_log_assert(cond, tag, __android_second(0, ## __VA_ARGS__, NULL) __android_rest(__VA_ARGS__))`.
It takes the tokens of its invocation and needs `cond` and `tag`. -/
def android_printAssert {σ : Type} (ts : List (Tok σ)) : Option (CExpr σ) :=
  match splitArgs ts with
  | cond :: tag :: rest =>
    let va := joinArgs rest
    match __android_second (.arg (.lit 0) :: commaPaste va ++ [.comma, .arg .null]) with
    | some second =>
      callOf "__android_log_assert"
        (cond ++ .comma :: (tag ++ .comma :: (second ++ __android_rest va)))
    | none => none
  | _ => none

/-- Macro `LOG_ALWAYS_FATAL_IF(cond, ...)`:
`( (__predict_false(cond)) ? ((void)android_printAssert(#cond, LOG_TAG, ## __VA_ARGS__)) : (void)0 )`. -/
def LOG_ALWAYS_FATAL_IF {σ : Type} (cfg : Config) (cond : Src σ) (va : List (Tok σ)) :
    Option (CExpr σ) :=
  (android_printAssert (.arg (.str cond.text) :: .comma :: .arg (LOG_TAG cfg) :: commaPaste va)).map
    fun e => .ternary (__predict_false (.user cond)) (.castVoid e) (.castVoid (.lit 0))

/-- Macro `LOG_ALWAYS_FATAL(...)`:
`( ((void)android_printAssert(NULL, LOG_TAG, ## __VA_ARGS__)) )`. -/
def LOG_ALWAYS_FATAL {σ : Type} (cfg : Config) (va : List (Tok σ)) : Option (CExpr σ) :=
  (android_printAssert (.arg .null :: .comma :: .arg (LOG_TAG cfg) :: commaPaste va)).map
    .castVoid

/-- Macro `LOG_FATAL_IF(cond, ...)`: under `LOG_NDEBUG` it is `((void)0)`,
otherwise `LOG_ALWAYS_FATAL_IF(cond, ## __VA_ARGS__)`.  Here `cond` is an
ordinary macro argument, so `LOG_ALWAYS_FATAL_IF` receives it macro-expanded. -/
def LOG_FATAL_IF {σ : Type} (cfg : Config) (cond : Src σ) (va : List (Tok σ)) :
    Option (CExpr σ) :=
  if LOG_NDEBUG cfg ≠ 0 then some (.castVoid (.lit 0))
  else LOG_ALWAYS_FATAL_IF cfg cond.prescanned va

/-- Macro `LOG_FATAL(...)`: under `LOG_NDEBUG` it is `((void)0)`, otherwise
`LOG_ALWAYS_FATAL(__VA_ARGS__)`. -/
def LOG_FATAL {σ : Type} (cfg : Config) (va : List (Tok σ)) : Option (CExpr σ) :=
  if LOG_NDEBUG cfg ≠ 0 then some (.castVoid (.lit 0))
  else LOG_ALWAYS_FATAL cfg va

/-! ### Conditionals on the log filter -/

/-- The default priority `android_testLog` passes: `ANDROID_LOG_DEBUG` under
`LOG_NDEBUG` (production), `ANDROID_LOG_VERBOSE` otherwise. -/
def testLogDefault (cfg : Config) : android_LogPriority :=
  if LOG_NDEBUG cfg ≠ 0 then ANDROID_LOG_DEBUG else ANDROID_LOG_VERBOSE

/-- Macro `android_testLog(prio, tag)`: when
`__ANDROID_USE_LIBLOG_LOGGABLE_INTERFACE` is non-zero and greater than one,
`(__android_log_is_loggable_len(prio, tag, (tag && *tag) ? strlen(tag) : 0, D) != 0)`;
when it is non-zero otherwise, `(__android_log_is_loggable(prio, tag, D) != 0)`;
when it is zero, `(1)`.  `D` is `ANDROID_LOG_DEBUG` under `LOG_NDEBUG` and
`ANDROID_LOG_VERBOSE` otherwise. -/
def android_testLog {σ : Type} (cfg : Config) (prio tag : CExpr σ) : CExpr σ :=
  if __ANDROID_USE_LIBLOG_LOGGABLE_INTERFACE cfg ≠ 0 then
    if __ANDROID_USE_LIBLOG_LOGGABLE_INTERFACE cfg > 1 then
      .ne (.call "__android_log_is_loggable_len"
            [prio, tag, .ternary (.land tag (.deref tag)) (.call "strlen" [tag]) (.lit 0),
             .lit (testLogDefault cfg).toInt])
          (.lit 0)
    else
      .ne (.call "__android_log_is_loggable" [prio, tag, .lit (testLogDefault cfg).toInt])
          (.lit 0)
  else
    .lit 1

/-- Macro `IF_ALOG(priority, tag)`: `if (android_testLog(ANDROID_##priority, tag))`,
in front of the statement it guards. -/
def IF_ALOG {σ : Type} (cfg : Config) (priority : android_LogPriority) (tag : CExpr σ)
    (body : CStmt σ) : CStmt σ :=
  .ifThen (android_testLog cfg (.lit priority.toInt) tag) body

/-- Macro `IF_ALOGV()`: under `LOG_NDEBUG` it is `if (false)`, otherwise
`IF_ALOG(LOG_VERBOSE, LOG_TAG)`. -/
def IF_ALOGV {σ : Type} (cfg : Config) (body : CStmt σ) : CStmt σ :=
  if LOG_NDEBUG cfg ≠ 0 then .ifThen (.lit 0) body
  else IF_ALOG cfg ANDROID_LOG_VERBOSE (LOG_TAG cfg) body

/-- Macro `IF_ALOGD()`: `IF_ALOG(LOG_DEBUG, LOG_TAG)`. -/
def IF_ALOGD {σ : Type} (cfg : Config) (body : CStmt σ) : CStmt σ :=
  IF_ALOG cfg ANDROID_LOG_DEBUG (LOG_TAG cfg) body

/-- Macro `IF_ALOGI()`: `IF_ALOG(LOG_INFO, LOG_TAG)`. -/
def IF_ALOGI {σ : Type} (cfg : Config) (body : CStmt σ) : CStmt σ :=
  IF_ALOG cfg ANDROID_LOG_INFO (LOG_TAG cfg) body

/-- Macro `IF_ALOGW()`: `IF_ALOG(LOG_WARN, LOG_TAG)`. -/
def IF_ALOGW {σ : Type} (cfg : Config) (body : CStmt σ) : CStmt σ :=
  IF_ALOG cfg ANDROID_LOG_WARN (LOG_TAG cfg) body

/-- Macro `IF_ALOGE()`: `IF_ALOG(LOG_ERROR, LOG_TAG)`. -/
def IF_ALOGE {σ : Type} (cfg : Config) (body : CStmt σ) : CStmt σ :=
  IF_ALOG cfg ANDROID_LOG_ERROR (LOG_TAG cfg) body

/-! ## Call sites -/

/-- The order of the remaining positions once the first position is left out:
position `i + 1` becomes `i`. -/
def dropFirst (ord : List Nat) : List Nat :=
  (ord.filter fun i => i != 0).map fun i => i - 1

/-- The order in which the build `O` evaluates the `n` arguments that come
after the first two in a call of `f` with `n + 2` arguments. -/
def userOrder (O : ArgOrder) (f : String) (n : Nat) : List Nat :=
  dropFirst (dropFirst (O.seq f (n + 2)))

/-- The values of caller-written arguments, by position, and the caller's
state after them, the arguments evaluated in the order `ord`. -/
def runArgs {σ : Type} (ord : List Nat) (va : List (Src σ)) (s : σ) : List Val × σ :=
  runOrdered (va.map Src.run) ord s

/-- An expression of the generated code acts on a live call site as `t` acts
on the caller's state: it makes no backend call and leaves the process live. -/
def ActsAs {σ : Type} (B : Backend) (O : ArgOrder) (e : CExpr σ) (t : σ → Val × σ) : Prop :=
  ∀ s tr, evalExpr B O e ⟨s, tr, false⟩ = ((t s).1, ⟨(t s).2, tr, false⟩)

/-- The variadic arguments `a1, ..., an` written by the caller. -/
def userPack {σ : Type} (va : List (Src σ)) : List (Tok σ) :=
  pack (va.map CExpr.user)

/-- The value of `LOG_TAG`. -/
def tagVal (cfg : Config) : Val :=
  match cfg.logTag with
  | none => .null
  | some s => .str s

/-- The five severity levels that have shortcut macros. -/
inductive Level where
  | verbose
  | debug
  | info
  | warn
  | error
  deriving DecidableEq, Repr

/-- The enumerator a level's macros name. -/
def Level.priority : Level → android_LogPriority
  | .verbose => ANDROID_LOG_VERBOSE
  | .debug => ANDROID_LOG_DEBUG
  | .info => ANDROID_LOG_INFO
  | .warn => ANDROID_LOG_WARN
  | .error => ANDROID_LOG_ERROR

/-- The conditional macro of a level: `ALOGV_IF`, `ALOGD_IF`, `ALOGI_IF`,
`ALOGW_IF`, `ALOGE_IF`. -/
def Level.condMacro {σ : Type} :
    Level → Config → CExpr σ → List (Tok σ) → Option (CExpr σ)
  | .verbose => ALOGV_IF
  | .debug => ALOGD_IF
  | .info => ALOGI_IF
  | .warn => ALOGW_IF
  | .error => ALOGE_IF

/-- The filter conditional of a level: `IF_ALOGV`, `IF_ALOGD`, `IF_ALOGI`,
`IF_ALOGW`, `IF_ALOGE`. -/
def Level.ifMacro {σ : Type} : Level → Config → CStmt σ → CStmt σ
  | .verbose => IF_ALOGV
  | .debug => IF_ALOGD
  | .info => IF_ALOGI
  | .warn => IF_ALOGW
  | .error => IF_ALOGE

/-- The priority the specification fixes for each level: VERBOSE=2, DEBUG=3,
INFO=4, WARN=5, ERROR=6. -/
def Level.fixedPriority : Level → Int
  | .verbose => 2
  | .debug => 3
  | .info => 4
  | .warn => 5
  | .error => 6

/-- The world the specification describes after `ALOG<L>_IF(cond, fmt, args...)`
at a live call site: `cond` has been evaluated once; when it is non-zero the
arguments have been evaluated, in the order `ord`, and `__android_log_print`
has been called once with the priority `p`, `LOG_TAG` and the arguments; when
it is zero no call has been made and no argument evaluated. -/
def condLogContract {σ : Type} (ord : List Nat) (p : Int) (cfg : Config) (cond : Src σ)
    (va : List (Src σ)) (s : σ) (tr : List Call) : World σ :=
  let c := cond.run s
  if c.1.isZero then ⟨c.2, tr, false⟩
  else
    let a := runArgs ord va c.2
    ⟨a.2, tr ++ [⟨"__android_log_print", .int p :: tagVal cfg :: a.1⟩], false⟩

/-- The length `android_testLog` passes to `__android_log_is_loggable_len`:
`(tag && *tag) ? strlen(tag) : 0` for `LOG_TAG`. -/
def tagLen (cfg : Config) : Int :=
  match cfg.logTag with
  | none => 0
  | some t => if (Val.str t).derefByte.isZero then 0 else strlen t

/-- The query `android_testLog` makes for the priority `p` and `LOG_TAG` when
`__ANDROID_USE_LIBLOG_LOGGABLE_INTERFACE` is non-zero: of
`__android_log_is_loggable_len` when it is greater than one, of
`__android_log_is_loggable` otherwise. -/
def loggableQuery (cfg : Config) (p : Int) : Call :=
  if __ANDROID_USE_LIBLOG_LOGGABLE_INTERFACE cfg > 1 then
    ⟨"__android_log_is_loggable_len",
      [.int p, tagVal cfg, .int (tagLen cfg), .int (testLogDefault cfg).toInt]⟩
  else
    ⟨"__android_log_is_loggable", [.int p, tagVal cfg, .int (testLogDefault cfg).toInt]⟩

/-- The world the specification describes after `LOG_ALWAYS_FATAL_IF(cond, ...)`
at a live call site: `cond` has been evaluated once; when it is non-zero the
message arguments have been evaluated, in the order `ord`, and
`__android_log_assert` has been called with the condition string `text`,
`LOG_TAG` and the message arguments (`NULL` when there are none), which ends
the process; when it is zero no call has been made and no message argument
evaluated. -/
def fatalContract {σ : Type} (ord : List Nat) (cfg : Config) (text : String) (cond : Src σ)
    (va : List (Src σ)) (s : σ) (tr : List Call) : World σ :=
  let c := cond.run s
  if c.1.isZero then ⟨c.2, tr, false⟩
  else
    let a := runArgs ord va c.2
    let msg := match va with
      | [] => [Val.null]
      | _ :: _ => a.1
    ⟨a.2, tr ++ [⟨"__android_log_assert", .str text :: tagVal cfg :: msg⟩], true⟩

/-! ### Example call sites -/

/-- A release build: `NDEBUG` defined, `LOG_NDEBUG` left to the header. -/
def releaseBuild : Config :=
  { logNdebug := none, ndebug := true, logTag := some "Tag", androidApi := none,
    loggableInterface := none }

/-- A debug build: `NDEBUG` not defined. -/
def debugBuild : Config :=
  { logNdebug := none, ndebug := false, logTag := some "Tag", androidApi := none,
    loggableInterface := none }

/-- A release build against API level 22 (Lollipop). -/
def lollipopBuild : Config :=
  { logNdebug := none, ndebug := true, logTag := some "Tag", androidApi := some 22,
    loggableInterface := none }

/-- The accessor `next()` over a counter: it increments the counter and returns
its new value. -/
def nextId : Src Nat :=
  { text := "next()", expanded := "next()", run := fun n => (.int (n + 1), n + 1) }

/-- A flag that is zero and has no side effect. -/
def flagOff : Src Nat :=
  { text := "flag", expanded := "flag", run := fun n => (.int 0, n) }

/-- The condition `FLAG_ON` where `FLAG_ON` is a macro defined as `1`. -/
def flagOn : Src Nat :=
  { text := "FLAG_ON", expanded := "1", run := fun n => (.int 1, n) }

/-- A format string literal. -/
def fmtD : Src Nat :=
  { text := "fmt", expanded := "fmt", run := fun n => (.str "%d", n) }

/-- A backend whose entry points all return 0: nothing is loggable. -/
def quietBackend : Backend := fun _ _ => 0

/-- A backend whose entry points all return 1: everything is loggable. -/
def chattyBackend : Backend := fun _ _ => 1

/-- Caller work that increments the counter. -/
def bumpWork : CStmt Nat := .work fun n => n + 1

end AndroidLog

/-! ## The C wrapper of libmetrics (`metrics/c_metrics_library.cc`) -/

namespace Metrics

/-- The class `MetricsLibrary` declared in `metrics_library.h`, a header that is
not among the sources: the three member functions the wrapper calls, acting on
the state `S` of one object.  `SendToUMA` and `SendEnumToUMA` return `bool`. -/
structure MetricsLibrary (S : Type) where
  Init : S → S
  SendToUMA : String → Int → Int → Int → Int → S → Bool × S
  SendEnumToUMA : String → Int → Int → S → Bool × S

/-- One recorded member-function call: the object it was made on and the
arguments it received. -/
inductive Invocation where
  | Init (obj : Nat)
  | SendToUMA (obj : Nat) (name : String) (sample min max nbuckets : Int)
  | SendEnumToUMA (obj : Nat) (name : String) (sample max : Int)
  deriving DecidableEq, Repr

/-- The memory the wrapper works on: the `MetricsLibrary` objects by address
(address `0` is `NULL`) and the member-function calls made so far. -/
structure Heap (S : Type) where
  objs : Nat → Option S
  calls : List Invocation

/-- The heap after the object at `p` has taken the state `s`. -/
def Heap.store {S : Type} (h : Heap S) (p : Nat) (s : S) (c : Invocation) : Heap S :=
  { objs := fun q => if q = p then some s else h.objs q
    calls := h.calls ++ [c] }

/-- The conversion of a `bool` to `int`. -/
def boolToInt (b : Bool) : Int := if b then 1 else 0

/-- The function `CMetricsLibraryInit`.  A handle is the address it casts to;
`none` is the undefined behaviour of a call through a pointer to no object. -/
def CMetricsLibraryInit {S : Type} (M : MetricsLibrary S) (handle : Nat) (h : Heap S) :
    Option (Heap S) :=
  let lib := handle
  if lib ≠ 0 then
    match h.objs lib with
    | some s => some (h.store lib (M.Init s) (.Init lib))
    | none => none
  else
    some h

/-- The function `CMetricsLibrarySendToUMA`.  The argument `name` is `none` for
a null pointer, which `std::string(name)` must not be given. -/
def CMetricsLibrarySendToUMA {S : Type} (M : MetricsLibrary S) (handle : Nat)
    (name : Option String) (sample min max nbuckets : Int) (h : Heap S) :
    Option (Int × Heap S) :=
  let lib := handle
  if lib = 0 then
    some (0, h)
  else
    match name, h.objs lib with
    | some n, some s =>
      let r := M.SendToUMA n sample min max nbuckets s
      some (boolToInt r.1, h.store lib r.2 (.SendToUMA lib n sample min max nbuckets))
    | _, _ => none

/-- The function `CMetricsLibrarySendEnumToUMA`. -/
def CMetricsLibrarySendEnumToUMA {S : Type} (M : MetricsLibrary S) (handle : Nat)
    (name : Option String) (sample max : Int) (h : Heap S) : Option (Int × Heap S) :=
  let lib := handle
  if lib = 0 then
    some (0, h)
  else
    match name, h.objs lib with
    | some n, some s =>
      let r := M.SendEnumToUMA n sample max s
      some (boolToInt r.1, h.store lib r.2 (.SendEnumToUMA lib n sample max))
    | _, _ => none

/-- A metrics object for examples: its state counts the samples it was sent,
and it accepts an enum sample only when it lies in `[0, max)`. -/
def countingLibrary : MetricsLibrary Nat where
  Init := fun _ => 0
  SendToUMA := fun _ _ _ _ _ n => (true, n + 1)
  SendEnumToUMA := fun _ sample max n => (decide (0 ≤ sample ∧ sample < max), n + 1)

/-- A heap with one object, at address 1. -/
def oneObject : Heap Nat where
  objs := fun q => if q = 1 then some 5 else none
  calls := []

end Metrics

/-! # Theorems -/

/-! ## Properties of the wrapper -/

namespace Metrics

/-- C1: called with the null handle, `CMetricsLibrarySendToUMA` and
`CMetricsLibrarySendEnumToUMA` return 0 for every name (a null name included)
and all integer arguments, and leave the heap, with its record of
member-function calls, exactly as it was. -/
theorem null_handle_send_returns_zero {S : Type} (M : MetricsLibrary S)
    (name : Option String) (sample min max nbuckets : Int) (h : Heap S) :
    CMetricsLibrarySendToUMA M 0 name sample min max nbuckets h = some (0, h) ∧
    CMetricsLibrarySendEnumToUMA M 0 name sample max h = some (0, h) := by
  constructor <;> rfl

/-- C2: for a non-null handle to an object, every name and all integer
arguments, `CMetricsLibrarySendToUMA` makes exactly one member-function call,
`SendToUMA` on that object with (name, sample, min, max, nbuckets) as given,
`CMetricsLibrarySendEnumToUMA` makes exactly one, `SendEnumToUMA` with (name,
sample, max) as given, whatever the sample and max; each returns 1 when the
member function returns true and 0 when it returns false. -/
theorem send_forwards_once {S : Type} (M : MetricsLibrary S) (handle : Nat)
    (name : String) (sample min max nbuckets : Int) (h : Heap S) (s : S)
    (hnn : handle ≠ 0) (hobj : h.objs handle = some s) :
    (∃ h1, CMetricsLibrarySendToUMA M handle (some name) sample min max nbuckets h
        = some ((if (M.SendToUMA name sample min max nbuckets s).1 then 1 else 0), h1) ∧
      h1.calls = h.calls ++ [Invocation.SendToUMA handle name sample min max nbuckets] ∧
      h1.objs handle = some (M.SendToUMA name sample min max nbuckets s).2 ∧
      ∀ q, q ≠ handle → h1.objs q = h.objs q) ∧
    (∃ h2, CMetricsLibrarySendEnumToUMA M handle (some name) sample max h
        = some ((if (M.SendEnumToUMA name sample max s).1 then 1 else 0), h2) ∧
      h2.calls = h.calls ++ [Invocation.SendEnumToUMA handle name sample max] ∧
      h2.objs handle = some (M.SendEnumToUMA name sample max s).2 ∧
      ∀ q, q ≠ handle → h2.objs q = h.objs q) := by
  constructor
  · refine ⟨h.store handle (M.SendToUMA name sample min max nbuckets s).2
      (.SendToUMA handle name sample min max nbuckets), ?_, rfl, ?_, ?_⟩
    · simp [CMetricsLibrarySendToUMA, hnn, hobj, boolToInt]
    · simp [Heap.store]
    · intro q hq
      simp [Heap.store, hq]
  · refine ⟨h.store handle (M.SendEnumToUMA name sample max s).2
      (.SendEnumToUMA handle name sample max), ?_, rfl, ?_, ?_⟩
    · simp [CMetricsLibrarySendEnumToUMA, hnn, hobj, boolToInt]
    · simp [Heap.store]
    · intro q hq
      simp [Heap.store, hq]

/-- Witness for C2: the enum sample 120 lies outside `[0, 100)` and is sent
through the handle 1 all the same. -/
theorem send_forwards_once_witness :
    (1 : Nat) ≠ 0 ∧ oneObject.objs 1 = some 5 ∧
    (∃ h1, CMetricsLibrarySendToUMA countingLibrary 1 (some "Net.Ping") 120 1 100 50 oneObject
        = some ((if (countingLibrary.SendToUMA "Net.Ping" 120 1 100 50 5).1 then 1 else 0), h1) ∧
      h1.calls = oneObject.calls ++ [Invocation.SendToUMA 1 "Net.Ping" 120 1 100 50] ∧
      h1.objs 1 = some (countingLibrary.SendToUMA "Net.Ping" 120 1 100 50 5).2 ∧
      ∀ q, q ≠ 1 → h1.objs q = oneObject.objs q) ∧
    (∃ h2, CMetricsLibrarySendEnumToUMA countingLibrary 1 (some "Net.Ping") 120 100 oneObject
        = some ((if (countingLibrary.SendEnumToUMA "Net.Ping" 120 100 5).1 then 1 else 0), h2) ∧
      h2.calls = oneObject.calls ++ [Invocation.SendEnumToUMA 1 "Net.Ping" 120 100] ∧
      h2.objs 1 = some (countingLibrary.SendEnumToUMA "Net.Ping" 120 100 5).2 ∧
      ∀ q, q ≠ 1 → h2.objs q = oneObject.objs q) :=
  ⟨by decide, rfl,
   send_forwards_once countingLibrary 1 "Net.Ping" 120 1 100 50 oneObject 5 (by decide) rfl⟩

/-- C8: `CMetricsLibraryInit` on the null handle returns normally with the heap
and its record of member-function calls unchanged; on a non-null handle to an
object it makes exactly one member-function call, `Init` on that object, and
leaves every other object as it was. -/
theorem init_calls_once_or_nothing {S : Type} (M : MetricsLibrary S) (h : Heap S) :
    CMetricsLibraryInit M 0 h = some h ∧
    ∀ (handle : Nat) (s : S), handle ≠ 0 → h.objs handle = some s →
      ∃ h1, CMetricsLibraryInit M handle h = some h1 ∧
        h1.calls = h.calls ++ [Invocation.Init handle] ∧
        h1.objs handle = some (M.Init s) ∧
        ∀ q, q ≠ handle → h1.objs q = h.objs q := by
  refine ⟨rfl, ?_⟩
  intro handle s hnn hobj
  refine ⟨h.store handle (M.Init s) (.Init handle), ?_, rfl, ?_, ?_⟩
  · simp [CMetricsLibraryInit, hnn, hobj]
  · simp [Heap.store]
  · intro q hq
    simp [Heap.store, hq]

/-- Witness for C8: `Init` through the handle 1 of the one-object heap. -/
theorem init_calls_once_or_nothing_witness :
    (1 : Nat) ≠ 0 ∧ oneObject.objs 1 = some 5 ∧
    CMetricsLibraryInit countingLibrary 0 oneObject = some oneObject ∧
    ∃ h1, CMetricsLibraryInit countingLibrary 1 oneObject = some h1 ∧
      h1.calls = oneObject.calls ++ [Invocation.Init 1] ∧
      h1.objs 1 = some (countingLibrary.Init 5) ∧
      ∀ q, q ≠ 1 → h1.objs q = oneObject.objs q :=
  ⟨by decide, rfl, (init_calls_once_or_nothing countingLibrary oneObject).1,
   (init_calls_once_or_nothing countingLibrary oneObject).2 1 5 (by decide) rfl⟩

end Metrics

namespace AndroidLog

open android_LogPriority

/-! ## Token sequences -/

theorem pack_cons_cons {σ : Type} (a b : CExpr σ) (es : List (CExpr σ)) :
    pack (a :: b :: es) = .arg a :: .comma :: pack (b :: es) := by
  simp [pack, joinArgs]

theorem pack_singleton {σ : Type} (a : CExpr σ) : pack [a] = [.arg a] := by
  simp [pack, joinArgs]

theorem pack_cons_eq {σ : Type} (a : CExpr σ) (es : List (CExpr σ)) :
    ∃ ts, pack (a :: es) = .arg a :: ts := by
  cases es with
  | nil => exact ⟨[], pack_singleton a⟩
  | cons b es => exact ⟨_, pack_cons_cons a b es⟩

theorem commaPaste_pack_cons {σ : Type} (a : CExpr σ) (es : List (CExpr σ)) :
    commaPaste (pack (a :: es)) = .comma :: pack (a :: es) := by
  obtain ⟨ts, h⟩ := pack_cons_eq a es
  rw [h]
  rfl

theorem splitArgs_pack_cons {σ : Type} (a : CExpr σ) (es : List (CExpr σ)) :
    splitArgs (pack (a :: es)) = [.arg a] :: es.map fun e => [.arg e] := by
  induction es generalizing a with
  | nil => simp [pack_singleton, splitArgs]
  | cons b es ih =>
    rw [pack_cons_cons]
    simp [splitArgs, ih]

theorem argExprs_singletons {σ : Type} (es : List (CExpr σ)) :
    argExprs (es.map fun e => [Tok.arg e]) = some es := by
  induction es with
  | nil => rfl
  | cons e es ih => simp [argExprs, ih]

theorem parseArgs_pack {σ : Type} (es : List (CExpr σ)) : parseArgs (pack es) = some es := by
  cases es with
  | nil => rfl
  | cons a es =>
    obtain ⟨ts, h⟩ := pack_cons_eq a es
    have h2 : parseArgs (pack (a :: es)) = argExprs (splitArgs (pack (a :: es))) := by
      rw [h]; rfl
    rw [h2, splitArgs_pack_cons]
    exact argExprs_singletons (a :: es)

theorem callOf_pack {σ : Type} (f : String) (es : List (CExpr σ)) :
    callOf f (pack es) = some (.call f es) := by
  simp [callOf, parseArgs_pack]

theorem pack_append_singleton {σ : Type} (a : CExpr σ) (es : List (CExpr σ)) (z : CExpr σ) :
    pack (a :: es) ++ [.comma, .arg z] = pack (a :: (es ++ [z])) := by
  induction es generalizing a with
  | nil => simp [pack_singleton, pack_cons_cons]
  | cons b es ih =>
    rw [pack_cons_cons]
    simp only [List.cons_append]
    rw [ih b, pack_cons_cons]

/-! ## Argument order -/

theorem runSeq_const_cons {ω : Type} (c : ω → Val × ω) (v : Val) (hc : ∀ w, c w = (v, w))
    (ths : List (ω → Val × ω)) (ord : List Nat) (w : ω) :
    (runSeq (c :: ths) ord w).2 = (runSeq ths (dropFirst ord) w).2 ∧
    (∀ j, (runSeq (c :: ths) ord w).1.lookup (j + 1)
      = (runSeq ths (dropFirst ord) w).1.lookup j) ∧
    (0 ∈ ord → (runSeq (c :: ths) ord w).1.lookup 0 = some v) := by
  induction ord generalizing w with
  | nil => simp [runSeq, dropFirst]
  | cons i rest ih =>
    cases i with
    | zero =>
      have h := ih w
      have hd : dropFirst (0 :: rest) = dropFirst rest := by simp [dropFirst]
      rw [hd]
      simp only [runSeq, List.getElem?_cons_zero, hc]
      refine ⟨h.1, ?_, ?_⟩
      · intro j
        rw [← h.2.1 j]
        simp [List.lookup]
      · intro _
        simp [List.lookup]
    | succ i =>
      have hd : dropFirst ((i + 1) :: rest) = i :: dropFirst rest := by simp [dropFirst]
      rw [hd]
      simp only [runSeq, List.getElem?_cons_succ]
      cases hth : ths[i]? with
      | none =>
        simp only []
        have h := ih w
        refine ⟨h.1, h.2.1, ?_⟩
        intro h0
        apply h.2.2
        simpa using h0
      | some th =>
        simp only []
        have h := ih (th w).2
        refine ⟨h.1, ?_, ?_⟩
        · intro j
          simp only [List.lookup]
          by_cases hj : j = i
          · subst hj; simp
          · have h1 : (j + 1 == i + 1) = false := by simpa using hj
            have h2 : (j == i) = false := by simpa using hj
            rw [h1, h2]
            exact h.2.1 j
        · intro h0
          have h0' : 0 ∈ rest := by simpa using h0
          have h1 : ((0 : Nat) == i + 1) = false := by simp
          simp only [List.lookup, h1]
          exact h.2.2 h0'

theorem valuesOf_succ (n : Nat) (ps : List (Nat × Val)) :
    valuesOf (n + 1) ps
      = (ps.lookup 0).getD .void
          :: (List.range n).map fun j => (ps.lookup (j + 1)).getD .void := by
  simp [valuesOf, List.range_succ_eq_map, List.map_map, Function.comp_def]

/-- An argument that is a constant can be left out of the order: it takes its
value whenever it is evaluated and changes nothing. -/
theorem runOrdered_const_cons {ω : Type} (c : ω → Val × ω) (v : Val) (hc : ∀ w, c w = (v, w))
    (ths : List (ω → Val × ω)) (ord : List Nat) (w : ω) (h0 : 0 ∈ ord) :
    runOrdered (c :: ths) ord w
      = (v :: (runOrdered ths (dropFirst ord) w).1, (runOrdered ths (dropFirst ord) w).2) := by
  obtain ⟨h1, h2, h3⟩ := runSeq_const_cons c v hc ths ord w
  simp only [runOrdered, List.length_cons, valuesOf_succ, h1, h3 h0, Option.getD_some, h2]
  rfl

theorem runOrdered_nil {ω : Type} (ord : List Nat) (w : ω) :
    runOrdered ([] : List (ω → Val × ω)) ord w = ([], w) := by
  have h : ∀ w, runSeq ([] : List (ω → Val × ω)) ord w = ([], w) := by
    induction ord with
    | nil => intro w; rfl
    | cons i rest ih => intro w; simp [runSeq, ih]
  simp [runOrdered, h, valuesOf]

theorem dropFirst_perm (ord : List Nat) (n : Nat) (h : ord.Perm (List.range (n + 1))) :
    (dropFirst ord).Perm (List.range n) := by
  have h1 := (h.filter fun i => i != 0).map fun i => i - 1
  have h2 : ((List.range (n + 1)).filter fun i => i != 0).map (fun i => i - 1)
      = List.range n := by
    rw [List.range_succ_eq_map]
    simp [List.filter_cons, List.filter_map, List.map_map, Function.comp_def]
  rw [h2] at h1
  exact h1

theorem zero_mem_of_perm (ord : List Nat) (n : Nat) (h : ord.Perm (List.range (n + 1))) :
    0 ∈ ord :=
  h.mem_iff.2 (List.mem_range.2 (Nat.succ_pos n))

theorem userOrder_perm (O : ArgOrder) (f : String) (n : Nat) :
    (userOrder O f n).Perm (List.range n) :=
  dropFirst_perm _ n (dropFirst_perm _ (n + 1) (O.perm f (n + 2)))

/-- Two constants in front of the other arguments of a call: whatever the
order, they take their values and the other arguments are evaluated in the
order the build gives them. -/
theorem runOrdered_two_consts {ω : Type} (O : ArgOrder) (f : String) (c1 c2 : ω → Val × ω)
    (v1 v2 : Val) (h1 : ∀ w, c1 w = (v1, w)) (h2 : ∀ w, c2 w = (v2, w))
    (ths : List (ω → Val × ω)) (w : ω) :
    runOrdered (c1 :: c2 :: ths) (O.seq f (ths.length + 2)) w
      = (v1 :: v2 :: (runOrdered ths (userOrder O f ths.length) w).1,
          (runOrdered ths (userOrder O f ths.length) w).2) := by
  have hp := O.perm f (ths.length + 2)
  rw [runOrdered_const_cons c1 v1 h1 _ _ w (zero_mem_of_perm _ _ hp)]
  rw [runOrdered_const_cons c2 v2 h2 _ _ w
    (zero_mem_of_perm _ _ (dropFirst_perm _ (ths.length + 1) hp))]
  rfl

/-- Constants only: whatever the order, the call receives them by position and
the state is unchanged. -/
theorem runOrdered_three_consts {ω : Type} (O : ArgOrder) (f : String)
    (c1 c2 c3 : ω → Val × ω) (v1 v2 v3 : Val) (h1 : ∀ w, c1 w = (v1, w))
    (h2 : ∀ w, c2 w = (v2, w)) (h3 : ∀ w, c3 w = (v3, w)) (w : ω) :
    runOrdered [c1, c2, c3] (O.seq f 3) w = ([v1, v2, v3], w) := by
  have h := runOrdered_two_consts O f c1 c2 v1 v2 h1 h2 [c3] w
  have hu := userOrder_perm O f 1
  simp only [List.length_cons, List.length_nil, Nat.zero_add, Nat.reduceAdd] at h
  rw [h, runOrdered_const_cons c3 v3 h3 [] _ w (zero_mem_of_perm _ 0 hu), runOrdered_nil]

theorem runOrdered_four_consts {ω : Type} (O : ArgOrder) (f : String)
    (c1 c2 c3 c4 : ω → Val × ω) (v1 v2 v3 v4 : Val) (h1 : ∀ w, c1 w = (v1, w))
    (h2 : ∀ w, c2 w = (v2, w)) (h3 : ∀ w, c3 w = (v3, w)) (h4 : ∀ w, c4 w = (v4, w))
    (w : ω) :
    runOrdered [c1, c2, c3, c4] (O.seq f 4) w = ([v1, v2, v3, v4], w) := by
  have h := runOrdered_two_consts O f c1 c2 v1 v2 h1 h2 [c3, c4] w
  have hu := userOrder_perm O f 2
  simp only [List.length_cons, List.length_nil, Nat.zero_add, Nat.reduceAdd] at h
  rw [h, runOrdered_const_cons c3 v3 h3 [c4] _ w (zero_mem_of_perm _ 1 hu),
    runOrdered_const_cons c4 v4 h4 [] _ w
      (zero_mem_of_perm _ 0 (dropFirst_perm _ 1 hu)), runOrdered_nil]

theorem runOrdered_one {ω : Type} (O : ArgOrder) (f : String) (c : ω → Val × ω) (w : ω) :
    runOrdered [c] (O.seq f 1) w = ([(c w).1], (c w).2) := by
  have hp := O.perm f 1
  have h : O.seq f 1 = [0] := by
    have := List.perm_singleton.1 (show (O.seq f 1).Perm [0] from hp)
    exact this
  rw [h]
  rfl

/-- An argument with an effect followed by a constant: whatever the order, the
call receives both values and the state is the one the first argument leaves. -/
theorem runOrdered_effect_const {ω : Type} (O : ArgOrder) (f : String) (a c : ω → Val × ω)
    (v : Val) (hc : ∀ w, c w = (v, w)) (w : ω) :
    runOrdered [a, c] (O.seq f 2) w = ([(a w).1, v], (a w).2) := by
  have hp := O.perm f 2
  have hlen : (O.seq f 2).length = 2 := by simpa using hp.length_eq
  have hnd : (O.seq f 2).Nodup := hp.nodup_iff.2 (List.nodup_range 2)
  have hmem : ∀ i ∈ O.seq f 2, i < 2 := fun i hi => List.mem_range.1 (hp.mem_iff.1 hi)
  match hseq : O.seq f 2, hlen, hnd, hmem with
  | [i, j], _, hnd, hmem =>
    have hi := hmem i (by simp)
    have hj := hmem j (by simp)
    have hij : i ≠ j := by
      intro h
      subst h
      simp at hnd
    have hcases : (i = 0 ∧ j = 1) ∨ (i = 1 ∧ j = 0) := by omega
    rcases hcases with ⟨rfl, rfl⟩ | ⟨rfl, rfl⟩
    · simp [runOrdered, runSeq, valuesOf, List.range_succ, List.lookup, hc]
    · simp [runOrdered, runSeq, valuesOf, List.range_succ, List.lookup, hc]

end AndroidLog

namespace AndroidLog

open android_LogPriority

/-! ## Evaluation -/

theorem isZero_int (n : Int) : (Val.int n).isZero = (n == 0) := rfl

theorem isZero_null : Val.null.isZero = true := rfl

theorem isZero_str (t : String) : (Val.str t).isZero = false := rfl

theorem isZero_ceq_zero (v : Val) : v.ceq (.int 0) = v.isZero := by
  cases v <;> simp [Val.ceq, Val.isZero]

theorem evalExpr_lit {σ : Type} (B : Backend) (O : ArgOrder) (n : Int) (w : World σ) :
    evalExpr B O (.lit n) w = (.int n, w) := by
  rw [evalExpr]

theorem evalExpr_str {σ : Type} (B : Backend) (O : ArgOrder) (t : String) (w : World σ) :
    evalExpr B O (.str t) w = (.str t, w) := by
  rw [evalExpr]

theorem evalExpr_null {σ : Type} (B : Backend) (O : ArgOrder) (w : World σ) :
    evalExpr B O .null w = (.null, w) := by
  rw [evalExpr]

theorem evalExpr_user {σ : Type} (B : Backend) (O : ArgOrder) (a : Src σ) (s : σ)
    (tr : List Call) :
    evalExpr B O (.user a) ⟨s, tr, false⟩ = ((a.run s).1, ⟨(a.run s).2, tr, false⟩) := by
  simp [evalExpr]

theorem evalExpr_call {σ : Type} (B : Backend) (O : ArgOrder) (f : String)
    (args : List (CExpr σ)) (w : World σ) :
    evalExpr B O (.call f args) w
      = if (runOrdered (evalThunks B O args) (O.seq f args.length) w).2.aborted then
          (.void, (runOrdered (evalThunks B O args) (O.seq f args.length) w).2)
        else perform B f (runOrdered (evalThunks B O args) (O.seq f args.length) w).1
          (runOrdered (evalThunks B O args) (O.seq f args.length) w).2 := by
  rw [evalExpr]

theorem evalExpr_ne {σ : Type} (B : Backend) (O : ArgOrder) (a b : CExpr σ) (w : World σ) :
    evalExpr B O (.ne a b) w
      = (.int (if (evalExpr B O a w).1.ceq (evalExpr B O b (evalExpr B O a w).2).1 then 0
            else 1),
          (evalExpr B O b (evalExpr B O a w).2).2) := by
  rw [evalExpr]

theorem evalExpr_castVoid {σ : Type} (B : Backend) (O : ArgOrder) (e : CExpr σ)
    (w : World σ) :
    evalExpr B O (.castVoid e) w = (.void, (evalExpr B O e w).2) := by
  rw [evalExpr]

theorem evalExpr_ternary {σ : Type} (B : Backend) (O : ArgOrder) (c t e : CExpr σ)
    (w : World σ) :
    evalExpr B O (.ternary c t e) w
      = if (evalExpr B O c w).1.isZero then evalExpr B O e (evalExpr B O c w).2
        else evalExpr B O t (evalExpr B O c w).2 := by
  rw [evalExpr]

theorem evalExpr_land {σ : Type} (B : Backend) (O : ArgOrder) (a b : CExpr σ) (w : World σ) :
    evalExpr B O (.land a b) w
      = if (evalExpr B O a w).1.isZero then (.int 0, (evalExpr B O a w).2)
        else (.int (if (evalExpr B O b (evalExpr B O a w).2).1.isZero then 0 else 1),
          (evalExpr B O b (evalExpr B O a w).2).2) := by
  rw [evalExpr]

theorem evalExpr_deref {σ : Type} (B : Backend) (O : ArgOrder) (e : CExpr σ) (w : World σ) :
    evalExpr B O (.deref e) w = ((evalExpr B O e w).1.derefByte, (evalExpr B O e w).2) := by
  rw [evalExpr]

theorem evalExpr_LOG_TAG {σ : Type} (B : Backend) (O : ArgOrder) (cfg : Config)
    (w : World σ) :
    evalExpr B O (LOG_TAG cfg) w = (tagVal cfg, w) := by
  unfold LOG_TAG tagVal
  cases cfg.logTag <;> simp [evalExpr]

theorem evalThunks_eq_map {σ : Type} (B : Backend) (O : ArgOrder) (es : List (CExpr σ)) :
    evalThunks B O es = es.map fun e w => evalExpr B O e w := by
  induction es with
  | nil => rw [evalThunks]; rfl
  | cons e es ih => rw [evalThunks, ih]; rfl

/-! ### Arguments that act on the caller's state only -/

theorem forall₂_getElem? {α β : Type} {R : α → β → Prop} {l1 : List α} {l2 : List β}
    (h : List.Forall₂ R l1 l2) (i : Nat) :
    (l1[i]? = none ∧ l2[i]? = none) ∨ ∃ a b, l1[i]? = some a ∧ l2[i]? = some b ∧ R a b := by
  induction h generalizing i with
  | nil => left; simp
  | cons hab _ ih =>
    cases i with
    | zero => right; exact ⟨_, _, by simp, by simp, hab⟩
    | succ i => simpa using ih i

theorem runSeq_actsAs {σ : Type} (B : Backend) (O : ArgOrder) {es : List (CExpr σ)}
    {ts : List (σ → Val × σ)} (h : List.Forall₂ (ActsAs B O) es ts) (ord : List Nat) (s : σ)
    (tr : List Call) :
    runSeq (evalThunks B O es) ord ⟨s, tr, false⟩
      = ((runSeq ts ord s).1, ⟨(runSeq ts ord s).2, tr, false⟩) := by
  rw [evalThunks_eq_map]
  induction ord generalizing s with
  | nil => rfl
  | cons i rest ih =>
    rcases forall₂_getElem? h i with ⟨h1, h2⟩ | ⟨e, t, h1, h2, hR⟩
    · simp only [runSeq, List.getElem?_map, h1, h2, Option.map_none']
      exact ih s
    · simp only [runSeq, List.getElem?_map, h1, h2, Option.map_some', hR s tr]
      rw [ih (t s).2]

theorem runOrdered_actsAs {σ : Type} (B : Backend) (O : ArgOrder) {es : List (CExpr σ)}
    {ts : List (σ → Val × σ)} (h : List.Forall₂ (ActsAs B O) es ts) (ord : List Nat) (s : σ)
    (tr : List Call) :
    runOrdered (evalThunks B O es) ord ⟨s, tr, false⟩
      = ((runOrdered ts ord s).1, ⟨(runOrdered ts ord s).2, tr, false⟩) := by
  have hl : (evalThunks B O es).length = ts.length := by
    rw [evalThunks_eq_map, List.length_map]
    exact h.length_eq
  simp only [runOrdered, runSeq_actsAs B O h, hl]

/-- A call whose arguments act on the caller's state only, at a live call site:
the arguments are evaluated in the order of the build and the function is
called on their values. -/
theorem evalExpr_call_actsAs {σ : Type} (B : Backend) (O : ArgOrder) (f : String)
    {es : List (CExpr σ)} {ts : List (σ → Val × σ)} (h : List.Forall₂ (ActsAs B O) es ts)
    (s : σ) (tr : List Call) :
    evalExpr B O (.call f es) ⟨s, tr, false⟩
      = perform B f (runOrdered ts (O.seq f ts.length) s).1
          ⟨(runOrdered ts (O.seq f ts.length) s).2, tr, false⟩ := by
  rw [evalExpr_call, h.length_eq, runOrdered_actsAs B O h]
  simp

theorem actsAs_lit {σ : Type} (B : Backend) (O : ArgOrder) (n : Int) :
    ActsAs B O (.lit n : CExpr σ) (fun s => (.int n, s)) :=
  fun _ _ => evalExpr_lit B O n _

theorem actsAs_str {σ : Type} (B : Backend) (O : ArgOrder) (t : String) :
    ActsAs B O (.str t : CExpr σ) (fun s => (.str t, s)) :=
  fun _ _ => evalExpr_str B O t _

theorem actsAs_null {σ : Type} (B : Backend) (O : ArgOrder) :
    ActsAs B O (.null : CExpr σ) (fun s => (.null, s)) :=
  fun _ _ => evalExpr_null B O _

theorem actsAs_LOG_TAG {σ : Type} (B : Backend) (O : ArgOrder) (cfg : Config) :
    ActsAs B O (LOG_TAG cfg : CExpr σ) (fun s => (tagVal cfg, s)) :=
  fun _ _ => evalExpr_LOG_TAG B O cfg _

theorem actsAs_user {σ : Type} (B : Backend) (O : ArgOrder) (a : Src σ) :
    ActsAs B O (.user a) a.run :=
  fun s tr => evalExpr_user B O a s tr

theorem actsAs_users {σ : Type} (B : Backend) (O : ArgOrder) (va : List (Src σ)) :
    List.Forall₂ (ActsAs B O) (va.map CExpr.user) (va.map Src.run) := by
  induction va with
  | nil => exact List.Forall₂.nil
  | cons a va ih => exact List.Forall₂.cons (actsAs_user B O a) ih

/-! ### The calls the macros make -/

theorem ALOG_userPack {σ : Type} (p : android_LogPriority) (cfg : Config) (f : Src σ)
    (va : List (Src σ)) :
    ALOG p (LOG_TAG cfg) (userPack (f :: va))
      = some (.call "__android_log_print"
          (.lit p.toInt :: LOG_TAG cfg :: (f :: va).map CExpr.user)) := by
  have h := callOf_pack "__android_log_print"
    (.lit p.toInt :: LOG_TAG cfg :: (f :: va).map (CExpr.user (σ := σ)))
  simp only [List.map_cons, pack_cons_cons] at h
  simpa [ALOG, LOG_PRI, android_printLog, userPack] using h

/-- The call `__android_log_print(p, LOG_TAG, args...)` at a live call site:
the arguments are evaluated in the order of the build and the call is
recorded with the priority, the tag and their values. -/
theorem evalExpr_print {σ : Type} (B : Backend) (O : ArgOrder) (p : Int) (cfg : Config)
    (va : List (Src σ)) (s : σ) (tr : List Call) :
    (evalExpr B O (.call "__android_log_print" (.lit p :: LOG_TAG cfg :: va.map CExpr.user))
        ⟨s, tr, false⟩).2
      = ⟨(runArgs (userOrder O "__android_log_print" va.length) va s).2,
          tr ++ [⟨"__android_log_print", .int p :: tagVal cfg
            :: (runArgs (userOrder O "__android_log_print" va.length) va s).1⟩], false⟩ := by
  have h : List.Forall₂ (ActsAs B O)
      (.lit p :: LOG_TAG cfg :: va.map CExpr.user)
      ((fun s => (.int p, s)) :: (fun s => (tagVal cfg, s)) :: va.map Src.run) :=
    List.Forall₂.cons (actsAs_lit B O p)
      (List.Forall₂.cons (actsAs_LOG_TAG B O cfg) (actsAs_users B O va))
  rw [evalExpr_call_actsAs B O _ h]
  have h2 := runOrdered_two_consts O "__android_log_print" (fun s : σ => (Val.int p, s))
    (fun s => (tagVal cfg, s)) (.int p) (tagVal cfg) (fun _ => rfl) (fun _ => rfl)
    (va.map Src.run) s
  simp only [List.length_cons, List.length_map] at h2 ⊢
  rw [h2]
  simp [perform, runArgs]

theorem evalExpr_predict_false {σ : Type} (B : Backend) (O : ArgOrder) (c : Src σ) (s : σ)
    (tr : List Call) :
    evalExpr B O (__predict_false (.user c)) ⟨s, tr, false⟩
      = (.int (if (c.run s).1.isZero then 0 else 1), ⟨(c.run s).2, tr, false⟩) := by
  have h1 : ActsAs B O (.ne (.user c) (.lit 0))
      (fun s => (.int (if (c.run s).1.isZero then 0 else 1), (c.run s).2)) := by
    intro s tr
    rw [evalExpr_ne, evalExpr_user, evalExpr_lit, isZero_ceq_zero]
  have h : List.Forall₂ (ActsAs B O) [.ne (.user c) (.lit 0), .lit 0]
      [(fun s => (.int (if (c.run s).1.isZero then 0 else 1), (c.run s).2)),
        (fun s => (.int 0, s))] :=
    List.Forall₂.cons h1 (List.Forall₂.cons (actsAs_lit B O 0) List.Forall₂.nil)
  unfold __predict_false
  rw [evalExpr_call_actsAs B O _ h]
  have h2 := runOrdered_effect_const O "__builtin_expect"
    (fun s : σ => (Val.int (if (c.run s).1.isZero then 0 else 1), (c.run s).2))
    (fun s => (.int 0, s)) (.int 0) (fun _ => rfl) s
  simp only [List.length_cons, List.length_nil] at h2 ⊢
  rw [h2]
  simp [perform]

end AndroidLog

namespace AndroidLog

open android_LogPriority

/-- The conditional macro of every level but stripped `ALOGV_IF` is the
conditional expression over the level's `__android_log_print` call. -/
theorem condMacro_expansion {σ : Type} (cfg : Config) (lvl : Level) (cond f : Src σ)
    (va : List (Src σ)) (h : lvl ≠ .verbose ∨ LOG_NDEBUG cfg = 0) :
    lvl.condMacro cfg (.user cond) (userPack (f :: va))
      = some (.ternary (__predict_false (.user cond))
          (.castVoid (.call "__android_log_print"
            (.lit lvl.priority.toInt :: LOG_TAG cfg :: (f :: va).map CExpr.user)))
          (.castVoid (.lit 0))) := by
  cases lvl
  case verbose =>
    have h0 : LOG_NDEBUG cfg = 0 := by
      rcases h with h | h
      · exact absurd rfl h
      · exact h
    simp [Level.condMacro, ALOGV_IF, h0, ALOG_userPack, Level.priority]
  all_goals simp [Level.condMacro, ALOGD_IF, ALOGI_IF, ALOGW_IF, ALOGE_IF, ALOG_userPack,
    Level.priority]

theorem fixedPriority_eq (lvl : Level) : lvl.priority.toInt = lvl.fixedPriority := by
  cases lvl <;> decide

/-- The evaluation of a level's conditional expression at a live call site. -/
theorem evalExpr_guarded {σ : Type} (B : Backend) (O : ArgOrder) (cfg : Config) (p : Int)
    (cond : Src σ) (va : List (Src σ)) (s : σ) (tr : List Call) :
    evalExpr B O (.ternary (__predict_false (.user cond))
        (.castVoid (.call "__android_log_print" (.lit p :: LOG_TAG cfg :: va.map CExpr.user)))
        (.castVoid (.lit 0))) ⟨s, tr, false⟩
      = (.void, condLogContract (userOrder O "__android_log_print" va.length) p cfg cond va
          s tr) := by
  rw [evalExpr_ternary, evalExpr_predict_false]
  by_cases hz : (cond.run s).1.isZero = true
  · rw [if_pos hz]
    have h1 : (Val.int 0).isZero = true := rfl
    simp only [h1, if_true, condLogContract, hz, evalExpr_castVoid, evalExpr_lit]
  · rw [if_neg hz]
    have h1 : (Val.int 1).isZero = false := rfl
    simp only [h1, condLogContract, hz, evalExpr_castVoid, evalExpr_print]
    simp

/-- C3: for each of `ALOGV_IF`, `ALOGD_IF`, `ALOGI_IF`, `ALOGW_IF`, `ALOGE_IF`,
every build configuration and every order of argument evaluation, when the
condition evaluates to zero the call site is left with the backend calls it
had (`__android_log_print` is not called) and with the caller state the
condition alone leaves (the state it had, for `ALOGV_IF` under `LOG_NDEBUG`):
no format or message argument is evaluated. -/
theorem cond_zero_evaluates_no_argument {σ : Type} (B : Backend) (O : ArgOrder)
    (cfg : Config) (lvl : Level) (cond f : Src σ) (va : List (Src σ)) (s : σ)
    (tr : List Call) (hz : (cond.run s).1.isZero = true) :
    ∃ e, lvl.condMacro cfg (.user cond) (userPack (f :: va)) = some e ∧
      evalExpr B O e ⟨s, tr, false⟩
        = (.void, ⟨if lvl = .verbose ∧ LOG_NDEBUG cfg ≠ 0 then s else (cond.run s).2, tr, false⟩) := by
  by_cases h : lvl = .verbose ∧ LOG_NDEBUG cfg ≠ 0
  · obtain ⟨h1, h2⟩ := h
    subst h1
    refine ⟨.castVoid (.lit 0), ?_, ?_⟩
    · simp [Level.condMacro, ALOGV_IF, h2]
    · simp [evalExpr_castVoid, evalExpr_lit, h2]
  · have h' : lvl ≠ .verbose ∨ LOG_NDEBUG cfg = 0 := by
      by_cases hl : lvl = .verbose
      · right
        by_contra hn
        exact h ⟨hl, hn⟩
      · left; exact hl
    refine ⟨_, condMacro_expansion cfg lvl cond f va h', ?_⟩
    rw [evalExpr_guarded]
    simp [condLogContract, hz, h]

/-- Witness for C3: `ALOGD_IF(flag, fmt, next())` with `flag` zero in a release
build that evaluates arguments from the last to the first. -/
theorem cond_zero_evaluates_no_argument_witness :
    (flagOff.run 0).1.isZero = true ∧
    ∃ e, Level.debug.condMacro releaseBuild (.user flagOff) (userPack [fmtD, nextId]) = some e ∧
      evalExpr quietBackend rightToLeft e ⟨0, [], false⟩
        = (.void, ⟨if Level.debug = .verbose ∧ LOG_NDEBUG releaseBuild ≠ 0 then 0
            else (flagOff.run 0).2, [], false⟩) :=
  ⟨rfl, cond_zero_evaluates_no_argument quietBackend rightToLeft releaseBuild .debug flagOff
    fmtD [nextId] 0 [] rfl⟩

/-- C4, as the code has it: at a live call site, in a build with any order of
argument evaluation, `ALOG<L>_IF(cond, fmt, args...)` expands to an expression
of type void; for debug, info, warn and error in every build configuration,
and for verbose when `LOG_NDEBUG` is zero, it evaluates `cond` once and, when
`cond` is non-zero, evaluates each of `fmt, args...` once, in the order of the
build, and calls `__android_log_print` once with the level's priority
(VERBOSE=2, DEBUG=3, INFO=4, WARN=5, ERROR=6), `LOG_TAG` and the arguments, and
makes no call when `cond` is zero; `ALOGV_IF` with `LOG_NDEBUG` non-zero
evaluates nothing and makes no call. -/
theorem cond_log_follows_contract {σ : Type} (B : Backend) (O : ArgOrder) (cfg : Config)
    (lvl : Level) (cond f : Src σ) (va : List (Src σ)) (s : σ) (tr : List Call) :
    (∃ e, lvl.condMacro cfg (.user cond) (userPack (f :: va)) = some e ∧
      evalExpr B O e ⟨s, tr, false⟩
        = (.void,
            if lvl = .verbose ∧ LOG_NDEBUG cfg ≠ 0 then ⟨s, tr, false⟩
            else condLogContract (userOrder O "__android_log_print" (f :: va).length)
              lvl.fixedPriority cfg cond (f :: va) s tr)) ∧
    (userOrder O "__android_log_print" (f :: va).length).Perm
      (List.range (f :: va).length) := by
  refine ⟨?_, userOrder_perm O _ _⟩
  by_cases h : lvl = .verbose ∧ LOG_NDEBUG cfg ≠ 0
  · obtain ⟨h1, h2⟩ := h
    subst h1
    refine ⟨.castVoid (.lit 0), ?_, ?_⟩
    · simp [Level.condMacro, ALOGV_IF, h2]
    · simp [evalExpr_castVoid, evalExpr_lit, h2]
  · have h' : lvl ≠ .verbose ∨ LOG_NDEBUG cfg = 0 := by
      by_cases hl : lvl = .verbose
      · right
        by_contra hn
        exact h ⟨hl, hn⟩
      · left; exact hl
    refine ⟨_, condMacro_expansion cfg lvl cond f va h', ?_⟩
    rw [evalExpr_guarded, fixedPriority_eq, if_neg h]

/-- C4 as stated fails: in a release build, whatever the order of argument
evaluation, `ALOGV_IF(next(), fmt)` with `next()` non-zero leaves the counter
at 0 and the backend uncalled, where the contract has `next()` evaluated once
and `__android_log_print(2, "Tag", "%d")` called. -/
theorem verbose_cond_stripped_counterexample :
    ∃ e, Level.verbose.condMacro releaseBuild (.user nextId) (userPack [fmtD]) = some e ∧
      ∀ O : ArgOrder,
        (evalExpr chattyBackend O e ⟨0, [], false⟩).2 = ⟨0, [], false⟩ ∧
        condLogContract (userOrder O "__android_log_print" 1) Level.verbose.fixedPriority
            releaseBuild nextId [fmtD] 0 []
          = ⟨1, [⟨"__android_log_print", [.int 2, .str "Tag", .str "%d"]⟩], false⟩ ∧
        (evalExpr chattyBackend O e ⟨0, [], false⟩).2
          ≠ condLogContract (userOrder O "__android_log_print" 1) Level.verbose.fixedPriority
              releaseBuild nextId [fmtD] 0 [] := by
  refine ⟨.castVoid (.lit 0), rfl, ?_⟩
  intro O
  have hu : userOrder O "__android_log_print" 1 = [0] :=
    List.perm_singleton.1 (userOrder_perm O "__android_log_print" 1)
  rw [hu, evalExpr_castVoid, evalExpr_lit]
  exact ⟨rfl, by decide, by decide⟩

theorem __ALOGV_userPack {σ : Type} (cfg : Config) (f : Src σ) (va : List (Src σ)) :
    __ALOGV cfg (userPack (f :: va))
      = some (.castVoid (.call "__android_log_print"
          (.lit ANDROID_LOG_VERBOSE.toInt :: LOG_TAG cfg :: (f :: va).map CExpr.user))) := by
  simp [__ALOGV, ALOG_userPack]

theorem ALOGV_stripped {σ : Type} (cfg : Config) (f : Src σ) (va : List (Src σ))
    (h : LOG_NDEBUG cfg ≠ 0) :
    ALOGV cfg (userPack (f :: va))
      = some (.doWhile0 (.block [.ifThen (.lit 0) (.block [.expr
          (.castVoid (.call "__android_log_print"
            (.lit ANDROID_LOG_VERBOSE.toInt :: LOG_TAG cfg :: (f :: va).map CExpr.user)))])])) := by
  simp only [ALOGV, h, ne_eq, not_false_eq_true, if_true, __ALOGV_userPack, Option.map_some']

theorem ALOGV_kept {σ : Type} (cfg : Config) (f : Src σ) (va : List (Src σ))
    (h : LOG_NDEBUG cfg = 0) :
    ALOGV cfg (userPack (f :: va))
      = some (.expr (.castVoid (.call "__android_log_print"
          (.lit ANDROID_LOG_VERBOSE.toInt :: LOG_TAG cfg :: (f :: va).map CExpr.user)))) := by
  simp only [ALOGV, h, ne_eq, not_true_eq_false, if_false, __ALOGV_userPack, Option.map_some']

/-- C5: in a build with any order of argument evaluation: when `LOG_NDEBUG` is
non-zero, the statement `ALOGV(fmt, args...);`, the expression
`ALOGV_IF(cond, ...)` and a statement guarded by `IF_ALOGV()` leave the call
site exactly as it was: no argument and no `cond` is evaluated, the guarded
statement is not executed, and no backend entry point is called; when
`LOG_NDEBUG` is zero, `ALOGV(fmt, args...);` at a live call site evaluates each
of its arguments once, in the order of the build, and calls
`__android_log_print` exactly once, with priority 2 (`ANDROID_LOG_VERBOSE`),
`LOG_TAG` and the arguments. -/
theorem verbose_stripped_or_printed {σ : Type} (B : Backend) (O : ArgOrder) (cfg : Config)
    (f : Src σ) (va : List (Src σ)) (cond : CExpr σ) (ts : List (Tok σ)) (body : CStmt σ)
    (w : World σ) (s : σ) (tr : List Call) :
    (LOG_NDEBUG cfg ≠ 0 →
      (∃ st, ALOGV cfg (userPack (f :: va)) = some st ∧ exec B O st w = w) ∧
      (∃ e, ALOGV_IF cfg cond ts = some e ∧ evalExpr B O e w = (.void, w)) ∧
      exec B O (IF_ALOGV cfg body) w = w) ∧
    (LOG_NDEBUG cfg = 0 →
      (∃ st, ALOGV cfg (userPack (f :: va)) = some st ∧
        exec B O st ⟨s, tr, false⟩
          = ⟨(runArgs (userOrder O "__android_log_print" (f :: va).length) (f :: va) s).2,
              tr ++ [⟨"__android_log_print", .int 2 :: tagVal cfg
                :: (runArgs (userOrder O "__android_log_print" (f :: va).length)
                  (f :: va) s).1⟩],
              false⟩) ∧
      (userOrder O "__android_log_print" (f :: va).length).Perm
        (List.range (f :: va).length)) := by
  constructor
  · intro h
    refine ⟨⟨_, ALOGV_stripped cfg f va h, ?_⟩, ⟨.castVoid (.lit 0), ?_, ?_⟩, ?_⟩
    · simp [exec, execList, evalExpr_lit, isZero_int]
    · simp [ALOGV_IF, h]
    · simp [evalExpr_castVoid, evalExpr_lit]
    · simp [IF_ALOGV, h, exec, evalExpr_lit, isZero_int]
  · intro h
    refine ⟨⟨_, ALOGV_kept cfg f va h, ?_⟩, userOrder_perm O _ _⟩
    have hp : ANDROID_LOG_VERBOSE.toInt = 2 := by decide
    rw [exec, evalExpr_castVoid, hp]
    exact evalExpr_print B O 2 cfg (f :: va) s tr

/-- Witness for C5: `ALOGV(fmt, next())`, `ALOGV_IF(next(), fmt)` and
`IF_ALOGV() n = n + 1;` in a release build, `ALOGV(fmt, next(), next())` in a
debug build that evaluates arguments from the last to the first. -/
theorem verbose_stripped_or_printed_witness :
    LOG_NDEBUG releaseBuild ≠ 0 ∧ LOG_NDEBUG debugBuild = 0 ∧
    ((∃ st, ALOGV releaseBuild (userPack [fmtD, nextId]) = some st ∧
        exec chattyBackend leftToRight st ⟨0, [], false⟩ = ⟨0, [], false⟩) ∧
      (∃ e, ALOGV_IF releaseBuild (.user nextId) (userPack [fmtD]) = some e ∧
        evalExpr chattyBackend leftToRight e ⟨0, [], false⟩ = (.void, ⟨0, [], false⟩)) ∧
      exec chattyBackend leftToRight (IF_ALOGV releaseBuild bumpWork) ⟨0, [], false⟩
        = ⟨0, [], false⟩) ∧
    ((∃ st, ALOGV debugBuild (userPack [fmtD, nextId, nextId]) = some st ∧
      exec chattyBackend rightToLeft st ⟨0, [], false⟩
        = ⟨(runArgs (userOrder rightToLeft "__android_log_print" [fmtD, nextId, nextId].length)
              [fmtD, nextId, nextId] 0).2,
            [] ++ [⟨"__android_log_print", .int 2 :: tagVal debugBuild
              :: (runArgs (userOrder rightToLeft "__android_log_print"
                [fmtD, nextId, nextId].length) [fmtD, nextId, nextId] 0).1⟩],
            false⟩) ∧
      (userOrder rightToLeft "__android_log_print" [fmtD, nextId, nextId].length).Perm
        (List.range [fmtD, nextId, nextId].length)) :=
  ⟨by decide, by decide,
   (verbose_stripped_or_printed chattyBackend leftToRight releaseBuild fmtD [nextId]
      (.user nextId) (userPack [fmtD]) bumpWork ⟨0, [], false⟩ 0 []).1 (by decide),
   (verbose_stripped_or_printed chattyBackend rightToLeft debugBuild fmtD [nextId, nextId]
      (.user nextId) (userPack [fmtD]) bumpWork ⟨0, [], false⟩ 0 []).2 (by decide)⟩

end AndroidLog

namespace AndroidLog

open android_LogPriority

theorem evalExpr_strlen_tag {σ : Type} (B : Backend) (O : ArgOrder) (cfg : Config) (s : σ)
    (tr : List Call) :
    evalExpr B O (.call "strlen" [LOG_TAG cfg]) ⟨s, tr, false⟩
      = perform B "strlen" [tagVal cfg] ⟨s, tr, false⟩ := by
  have h : List.Forall₂ (ActsAs B O) [(LOG_TAG cfg : CExpr σ)] [fun s => (tagVal cfg, s)] :=
    List.Forall₂.cons (actsAs_LOG_TAG B O cfg) List.Forall₂.nil
  rw [evalExpr_call_actsAs B O _ h]
  have h1 := runOrdered_one O "strlen" (fun s : σ => (tagVal cfg, s)) s
  simp only [List.length_cons, List.length_nil] at h1 ⊢
  rw [h1]

theorem evalExpr_tagLen {σ : Type} (B : Backend) (O : ArgOrder) (cfg : Config) (s : σ)
    (tr : List Call) :
    evalExpr B O (.ternary (.land (LOG_TAG cfg) (.deref (LOG_TAG cfg)))
        (.call "strlen" [LOG_TAG cfg]) (.lit 0)) ⟨s, tr, false⟩
      = (.int (tagLen cfg), ⟨s, tr, false⟩) := by
  have hland : evalExpr B O (.land (LOG_TAG cfg) (.deref (LOG_TAG cfg))) ⟨s, tr, false⟩
      = (.int (if (tagVal cfg).isZero then 0
            else if (tagVal cfg).derefByte.isZero then 0 else 1), ⟨s, tr, false⟩) := by
    simp only [evalExpr_land, evalExpr_deref, evalExpr_LOG_TAG]
    split_ifs <;> rfl
  rw [evalExpr_ternary, hland]
  simp only []
  rw [evalExpr_strlen_tag, evalExpr_lit]
  unfold tagLen tagVal
  cases cfg.logTag with
  | none => simp [isZero_null, isZero_int]
  | some t =>
    by_cases hz : (Val.str t).derefByte.isZero = true
    · simp [hz, isZero_str, isZero_int]
    · simp [hz, isZero_str, isZero_int, perform]

theorem evalExpr_testLog {σ : Type} (B : Backend) (O : ArgOrder) (cfg : Config) (p : Int)
    (s : σ) (tr : List Call) :
    evalExpr B O (android_testLog cfg (.lit p) (LOG_TAG cfg)) ⟨s, tr, false⟩
      = if __ANDROID_USE_LIBLOG_LOGGABLE_INTERFACE cfg = 0 then (.int 1, ⟨s, tr, false⟩)
        else
          (.int (if B (loggableQuery cfg p).fn (loggableQuery cfg p).args = 0 then 0 else 1),
            ⟨s, tr ++ [loggableQuery cfg p], false⟩) := by
  by_cases h0 : __ANDROID_USE_LIBLOG_LOGGABLE_INTERFACE cfg = 0
  · simp [android_testLog, h0, evalExpr_lit]
  · by_cases h1 : __ANDROID_USE_LIBLOG_LOGGABLE_INTERFACE cfg > 1
    · simp only [android_testLog, h0, h1, ne_eq, not_false_eq_true, if_true, if_false,
        loggableQuery]
      have h : List.Forall₂ (ActsAs B O)
          [(.lit p : CExpr σ), LOG_TAG cfg,
            .ternary (.land (LOG_TAG cfg) (.deref (LOG_TAG cfg)))
              (.call "strlen" [LOG_TAG cfg]) (.lit 0),
            .lit (testLogDefault cfg).toInt]
          [(fun s : σ => (Val.int p, s)), (fun s => (tagVal cfg, s)),
            (fun s => (.int (tagLen cfg), s)),
            (fun s => (.int (testLogDefault cfg).toInt, s))] :=
        List.Forall₂.cons (actsAs_lit B O p)
          (List.Forall₂.cons (actsAs_LOG_TAG B O cfg)
            (List.Forall₂.cons (fun s tr => evalExpr_tagLen B O cfg s tr)
              (List.Forall₂.cons (actsAs_lit B O _) List.Forall₂.nil)))
      rw [evalExpr_ne, evalExpr_call_actsAs B O _ h]
      have h4 := runOrdered_four_consts O "__android_log_is_loggable_len"
        (fun s : σ => (Val.int p, s)) (fun s => (tagVal cfg, s))
        (fun s => (.int (tagLen cfg), s)) (fun s => (.int (testLogDefault cfg).toInt, s))
        _ _ _ _ (fun _ => rfl) (fun _ => rfl) (fun _ => rfl) (fun _ => rfl) s
      simp only [List.length_cons, List.length_nil, Nat.zero_add, Nat.reduceAdd] at h4 ⊢
      rw [h4]
      simp [perform, evalExpr_lit, isZero_ceq_zero, isZero_int]
    · simp only [android_testLog, h0, h1, ne_eq, not_false_eq_true, if_true, if_false,
        loggableQuery]
      have h : List.Forall₂ (ActsAs B O)
          [(.lit p : CExpr σ), LOG_TAG cfg, .lit (testLogDefault cfg).toInt]
          [(fun s : σ => (Val.int p, s)), (fun s => (tagVal cfg, s)),
            (fun s => (.int (testLogDefault cfg).toInt, s))] :=
        List.Forall₂.cons (actsAs_lit B O p)
          (List.Forall₂.cons (actsAs_LOG_TAG B O cfg)
            (List.Forall₂.cons (actsAs_lit B O _) List.Forall₂.nil))
      rw [evalExpr_ne, evalExpr_call_actsAs B O _ h]
      have h3 := runOrdered_three_consts O "__android_log_is_loggable"
        (fun s : σ => (Val.int p, s)) (fun s => (tagVal cfg, s))
        (fun s => (.int (testLogDefault cfg).toInt, s))
        _ _ _ (fun _ => rfl) (fun _ => rfl) (fun _ => rfl) s
      simp only [List.length_cons, List.length_nil, Nat.zero_add, Nat.reduceAdd] at h3 ⊢
      rw [h3]
      simp [perform, evalExpr_lit, isZero_ceq_zero, isZero_int]

theorem ifMacro_eq {σ : Type} (cfg : Config) (lvl : Level) (body : CStmt σ)
    (h : lvl ≠ .verbose ∨ LOG_NDEBUG cfg = 0) :
    lvl.ifMacro cfg body
      = .ifThen (android_testLog cfg (.lit lvl.fixedPriority) (LOG_TAG cfg)) body := by
  cases lvl
  case verbose =>
    have h0 : LOG_NDEBUG cfg = 0 := by
      rcases h with h | h
      · exact absurd rfl h
      · exact h
    have hp : ANDROID_LOG_VERBOSE.toInt = 2 := by decide
    simp [Level.ifMacro, IF_ALOGV, IF_ALOG, h0, hp, Level.fixedPriority]
  case debug =>
    have hp : ANDROID_LOG_DEBUG.toInt = 3 := by decide
    simp [Level.ifMacro, IF_ALOGD, IF_ALOG, hp, Level.fixedPriority]
  case info =>
    have hp : ANDROID_LOG_INFO.toInt = 4 := by decide
    simp [Level.ifMacro, IF_ALOGI, IF_ALOG, hp, Level.fixedPriority]
  case warn =>
    have hp : ANDROID_LOG_WARN.toInt = 5 := by decide
    simp [Level.ifMacro, IF_ALOGW, IF_ALOG, hp, Level.fixedPriority]
  case error =>
    have hp : ANDROID_LOG_ERROR.toInt = 6 := by decide
    simp [Level.ifMacro, IF_ALOGE, IF_ALOG, hp, Level.fixedPriority]

/-- C7, as the code has it: for `IF_ALOGD`, `IF_ALOGI`, `IF_ALOGW`, `IF_ALOGE`
(and `IF_ALOGV` when `LOG_NDEBUG` is zero) and every `LOG_TAG`, at a live call
site and in a build with any order of argument evaluation: when
`__ANDROID_USE_LIBLOG_LOGGABLE_INTERFACE` is non-zero the backend is-loggable
predicate is queried once for the level's priority and `LOG_TAG`, and the
guarded statement is executed when the answer is non-zero and not executed
when it is zero; when `__ANDROID_USE_LIBLOG_LOGGABLE_INTERFACE` is zero no
query is made and the guarded statement is executed. -/
theorem if_alog_guards_by_interface {σ : Type} (B : Backend) (O : ArgOrder) (cfg : Config)
    (lvl : Level) (body : CStmt σ) (s : σ) (tr : List Call)
    (h : lvl ≠ .verbose ∨ LOG_NDEBUG cfg = 0) :
    exec B O (lvl.ifMacro cfg body) ⟨s, tr, false⟩
      = if __ANDROID_USE_LIBLOG_LOGGABLE_INTERFACE cfg = 0 then exec B O body ⟨s, tr, false⟩
        else if B (loggableQuery cfg lvl.fixedPriority).fn
            (loggableQuery cfg lvl.fixedPriority).args = 0 then
          ⟨s, tr ++ [loggableQuery cfg lvl.fixedPriority], false⟩
        else exec B O body ⟨s, tr ++ [loggableQuery cfg lvl.fixedPriority], false⟩ := by
  rw [ifMacro_eq cfg lvl body h, exec, evalExpr_testLog]
  by_cases h0 : __ANDROID_USE_LIBLOG_LOGGABLE_INTERFACE cfg = 0
  · simp [h0, isZero_int]
  · by_cases hq : B (loggableQuery cfg lvl.fixedPriority).fn
        (loggableQuery cfg lvl.fixedPriority).args = 0
    · simp [h0, hq, isZero_int]
    · simp [h0, hq, isZero_int]

/-- Witness for C7: `IF_ALOGW() n = n + 1;` in a release build that evaluates
arguments from the last to the first. -/
theorem if_alog_guards_by_interface_witness :
    (Level.warn ≠ .verbose ∨ LOG_NDEBUG releaseBuild = 0) ∧
    exec quietBackend rightToLeft (Level.warn.ifMacro releaseBuild bumpWork) ⟨0, [], false⟩
      = if __ANDROID_USE_LIBLOG_LOGGABLE_INTERFACE releaseBuild = 0 then
          exec quietBackend rightToLeft bumpWork ⟨0, [], false⟩
        else if quietBackend (loggableQuery releaseBuild Level.warn.fixedPriority).fn
            (loggableQuery releaseBuild Level.warn.fixedPriority).args = 0 then
          ⟨0, [] ++ [loggableQuery releaseBuild Level.warn.fixedPriority], false⟩
        else exec quietBackend rightToLeft bumpWork
          ⟨0, [] ++ [loggableQuery releaseBuild Level.warn.fixedPriority], false⟩ :=
  ⟨by decide, if_alog_guards_by_interface quietBackend rightToLeft releaseBuild .warn bumpWork
    0 [] (by decide)⟩

/-- C7 as stated fails: built against API level 22 (so that
`__ANDROID_USE_LIBLOG_LOGGABLE_INTERFACE` is 0), with a backend whose
is-loggable predicate answers 0 to every query, the statement guarded by
`IF_ALOGD()` is executed all the same (the counter goes from 0 to 1) and no
query is made, whatever the order of argument evaluation. -/
theorem if_alog_api22_counterexample :
    __ANDROID_USE_LIBLOG_LOGGABLE_INTERFACE lollipopBuild = 0 ∧
    (∀ f vs, quietBackend f vs = 0) ∧
    ∀ O : ArgOrder,
      exec quietBackend O (Level.debug.ifMacro lollipopBuild bumpWork) ⟨0, [], false⟩
        = ⟨1, [], false⟩ := by
  refine ⟨by decide, fun _ _ => rfl, ?_⟩
  intro O
  have h0 : __ANDROID_USE_LIBLOG_LOGGABLE_INTERFACE lollipopBuild = 0 := by decide
  have h : Level.debug.ifMacro lollipopBuild bumpWork
      = CStmt.ifThen (.lit 1) bumpWork := by
    simp [Level.ifMacro, IF_ALOGD, IF_ALOG, android_testLog, h0]
  rw [h]
  simp [exec, evalExpr_lit, isZero_int, bumpWork]

end AndroidLog

namespace AndroidLog

open android_LogPriority

/-! ## Assertions -/

theorem __android_rest_pack {σ : Type} (args : List (CExpr σ)) :
    __android_rest (pack args)
      = match args with
        | [] => []
        | [_] => []
        | _ :: b :: bs => .comma :: pack (b :: bs) := by
  match args with
  | [] => rfl
  | [a] => simp [__android_rest, pack_singleton, splitArgs, joinArgs, commaPaste]
  | a :: b :: bs =>
    simp only [__android_rest, splitArgs_pack_cons, List.map_cons]
    exact commaPaste_pack_cons b bs

theorem __android_second_pack {σ : Type} (args : List (CExpr σ)) :
    __android_second (.arg (.lit 0) :: commaPaste (pack args) ++ [.comma, .arg .null])
      = some [.arg (match args with
          | [] => .null
          | a :: _ => a)] := by
  match args with
  | [] => simp [__android_second, pack, joinArgs, commaPaste, splitArgs]
  | a :: rest =>
    have h : Tok.arg (CExpr.lit 0) :: commaPaste (pack (a :: rest)) ++ [.comma, .arg .null]
        = pack (.lit 0 :: a :: (rest ++ [.null])) := by
      rw [commaPaste_pack_cons, pack_cons_cons, ← pack_append_singleton]
      rfl
    rw [h]
    simp only [__android_second, splitArgs_pack_cons, List.map_cons]

theorem printAssert_tokens {σ : Type} (cond tag : CExpr σ) (args : List (CExpr σ)) :
    [Tok.arg cond] ++ .comma :: ([Tok.arg tag] ++ .comma ::
        ([Tok.arg (match args with
          | [] => .null
          | a :: _ => a)] ++ __android_rest (pack args)))
      = pack (cond :: tag :: (match args with
          | [] => [.null]
          | a :: rest => a :: rest)) := by
  rw [__android_rest_pack]
  match args with
  | [] => simp [pack, joinArgs]
  | [a] => simp [pack, joinArgs]
  | a :: b :: bs => simp [pack_cons_cons]

theorem android_printAssert_pack {σ : Type} (cond tag : CExpr σ) (args : List (CExpr σ)) :
    android_printAssert (pack (cond :: tag :: args))
      = some (.call "__android_log_assert" (cond :: tag :: (match args with
          | [] => [.null]
          | a :: rest => a :: rest))) := by
  have hva : joinArgs (args.map fun e => [Tok.arg e]) = pack args := rfl
  simp only [android_printAssert, splitArgs_pack_cons, List.map_cons, hva,
    __android_second_pack]
  have h := printAssert_tokens cond tag args
  simp only [List.append_assoc, List.cons_append, List.nil_append] at h ⊢
  rw [h, callOf_pack]

theorem assert_invocation_tokens {σ : Type} (cond tag : CExpr σ) (args : List (CExpr σ)) :
    Tok.arg cond :: .comma :: .arg tag :: commaPaste (pack args) = pack (cond :: tag :: args) := by
  match args with
  | [] => simp [pack, joinArgs, commaPaste]
  | a :: rest => rw [commaPaste_pack_cons, pack_cons_cons, pack_cons_cons]

/-- The call `__android_log_assert(cond, LOG_TAG, NULL)` at a live call site,
whatever the order of argument evaluation. -/
theorem evalExpr_assert_null {σ : Type} (B : Backend) (O : ArgOrder) (cfg : Config)
    (c : CExpr σ) (v : Val) (hc : ActsAs B O c (fun s => (v, s))) (s : σ) (tr : List Call) :
    evalExpr B O (.call "__android_log_assert" [c, LOG_TAG cfg, .null]) ⟨s, tr, false⟩
      = (.void, ⟨s, tr ++ [⟨"__android_log_assert", [v, tagVal cfg, .null]⟩], true⟩) := by
  have h : List.Forall₂ (ActsAs B O) [c, LOG_TAG cfg, .null]
      [(fun s : σ => (v, s)), (fun s => (tagVal cfg, s)), (fun s => (Val.null, s))] :=
    List.Forall₂.cons hc
      (List.Forall₂.cons (actsAs_LOG_TAG B O cfg)
        (List.Forall₂.cons (actsAs_null B O) List.Forall₂.nil))
  rw [evalExpr_call_actsAs B O _ h]
  have h3 := runOrdered_three_consts O "__android_log_assert"
    (fun s : σ => (v, s)) (fun s => (tagVal cfg, s)) (fun s => (Val.null, s))
    _ _ _ (fun _ => rfl) (fun _ => rfl) (fun _ => rfl) s
  simp only [List.length_cons, List.length_nil, Nat.zero_add, Nat.reduceAdd] at h3 ⊢
  rw [h3]
  simp [perform]

/-- C6: for every argument list after `(cond, tag)`, `android_printAssert`
expands to `__android_log_assert(cond, tag, NULL)` when the list is empty and to
`__android_log_assert(cond, tag, a1, ..., an)`, the arguments in their order and
no `NULL` added, when it is `a1, ..., an` with n at least 1; `__android_rest`
contributes nothing for n at most 1 and a comma followed by `a2, ..., an` for n
at least 2; and `LOG_ALWAYS_FATAL()` is `(void)__android_log_assert(NULL,
LOG_TAG, NULL)`, which at a live call site, whatever the order of argument
evaluation, makes exactly that call and ends the process. -/
theorem print_assert_expansion {σ : Type} (B : Backend) (O : ArgOrder) (cfg : Config)
    (cond tag : CExpr σ) (args : List (CExpr σ)) (s : σ) (tr : List Call) :
    android_printAssert (pack (cond :: tag :: args))
      = some (.call "__android_log_assert" (cond :: tag :: (match args with
          | [] => [.null]
          | a :: rest => a :: rest))) ∧
    __android_rest (pack args)
      = (match args with
        | [] => []
        | [_] => []
        | _ :: b :: bs => .comma :: pack (b :: bs)) ∧
    LOG_ALWAYS_FATAL cfg ([] : List (Tok σ))
      = some (.castVoid (.call "__android_log_assert" [.null, LOG_TAG cfg, .null])) ∧
    evalExpr B O (.castVoid (.call "__android_log_assert" [.null, LOG_TAG cfg, .null]))
        ⟨s, tr, false⟩
      = (.void, ⟨s, tr ++ [⟨"__android_log_assert", [.null, tagVal cfg, .null]⟩], true⟩) := by
  refine ⟨android_printAssert_pack cond tag args, __android_rest_pack args, ?_, ?_⟩
  · have h := android_printAssert_pack (.null : CExpr σ) (LOG_TAG cfg) []
    rw [← assert_invocation_tokens] at h
    simp only [LOG_ALWAYS_FATAL]
    have hp : commaPaste (pack ([] : List (CExpr σ))) = commaPaste ([] : List (Tok σ)) := rfl
    rw [hp] at h
    rw [h]
    rfl
  · rw [evalExpr_castVoid, evalExpr_assert_null B O cfg .null .null (actsAs_null B O)]

end AndroidLog

namespace AndroidLog

open android_LogPriority

theorem LOG_ALWAYS_FATAL_IF_userPack {σ : Type} (cfg : Config) (cond : Src σ)
    (va : List (Src σ)) :
    LOG_ALWAYS_FATAL_IF cfg cond (userPack va)
      = some (.ternary (__predict_false (.user cond))
          (.castVoid (.call "__android_log_assert"
            (.str cond.text :: LOG_TAG cfg :: (match va.map CExpr.user with
              | [] => [.null]
              | a :: rest => a :: rest))))
          (.castVoid (.lit 0))) := by
  simp only [LOG_ALWAYS_FATAL_IF, userPack, assert_invocation_tokens, android_printAssert_pack,
    Option.map_some']

/-- The call `__android_log_assert(text, LOG_TAG, message...)` at a live call
site: the message arguments are evaluated in the order of the build, the call
is recorded and the process ends. -/
theorem evalExpr_assert {σ : Type} (B : Backend) (O : ArgOrder) (cfg : Config)
    (text : String) (va : List (Src σ)) (s : σ) (tr : List Call) :
    (evalExpr B O (.call "__android_log_assert"
        (.str text :: LOG_TAG cfg :: (match va.map CExpr.user with
          | [] => [.null]
          | a :: rest => a :: rest))) ⟨s, tr, false⟩).2
      = ⟨(runArgs (userOrder O "__android_log_assert" va.length) va s).2,
          tr ++ [⟨"__android_log_assert", .str text :: tagVal cfg :: (match va with
            | [] => [Val.null]
            | _ :: _ => (runArgs (userOrder O "__android_log_assert" va.length) va s).1)⟩],
          true⟩ := by
  match va with
  | [] =>
    simp only [List.map_nil]
    rw [evalExpr_assert_null B O cfg (.str text) (.str text) (actsAs_str B O text)]
    simp [runArgs, runOrdered_nil]
  | a :: rest =>
    have h : List.Forall₂ (ActsAs B O)
        (.str text :: LOG_TAG cfg :: (a :: rest).map CExpr.user)
        ((fun s : σ => (Val.str text, s)) :: (fun s => (tagVal cfg, s))
          :: (a :: rest).map Src.run) :=
      List.Forall₂.cons (actsAs_str B O text)
        (List.Forall₂.cons (actsAs_LOG_TAG B O cfg) (actsAs_users B O (a :: rest)))
    have h2 := runOrdered_two_consts O "__android_log_assert"
      (fun s : σ => (Val.str text, s)) (fun s => (tagVal cfg, s)) (.str text) (tagVal cfg)
      (fun _ => rfl) (fun _ => rfl) ((a :: rest).map Src.run) s
    simp only [List.map_cons] at h h2 ⊢
    rw [evalExpr_call_actsAs B O _ h]
    simp only [List.length_cons, List.length_map] at h2 ⊢
    rw [h2]
    simp [perform, runArgs]

theorem evalExpr_fatal {σ : Type} (B : Backend) (O : ArgOrder) (cfg : Config) (text : String)
    (cond : Src σ) (va : List (Src σ)) (s : σ) (tr : List Call) :
    evalExpr B O (.ternary (__predict_false (.user cond))
        (.castVoid (.call "__android_log_assert"
          (.str text :: LOG_TAG cfg :: (match va.map CExpr.user with
            | [] => [.null]
            | a :: rest => a :: rest))))
        (.castVoid (.lit 0))) ⟨s, tr, false⟩
      = (.void, fatalContract (userOrder O "__android_log_assert" va.length) cfg text cond va
          s tr) := by
  rw [evalExpr_ternary, evalExpr_predict_false]
  by_cases hz : (cond.run s).1.isZero = true
  · rw [if_pos hz]
    have h1 : (Val.int 0).isZero = true := rfl
    simp only [h1, if_true, fatalContract, hz, evalExpr_castVoid, evalExpr_lit]
  · rw [if_neg hz]
    have h1 : (Val.int 1).isZero = false := rfl
    simp only [h1, fatalContract, hz, evalExpr_castVoid, evalExpr_assert]
    simp

theorem LOG_FATAL_IF_kept {σ : Type} (cfg : Config) (cond : Src σ) (va : List (Src σ))
    (h : LOG_NDEBUG cfg = 0) :
    LOG_FATAL_IF cfg cond (userPack va)
      = some (.ternary (__predict_false (.user cond.prescanned))
          (.castVoid (.call "__android_log_assert"
            (.str cond.expanded :: LOG_TAG cfg :: (match va.map CExpr.user with
              | [] => [.null]
              | a :: rest => a :: rest))))
          (.castVoid (.lit 0))) := by
  simp only [LOG_FATAL_IF, h, ne_eq, not_true_eq_false, if_false]
  exact LOG_ALWAYS_FATAL_IF_userPack cfg cond.prescanned va

/-- C9, as the code has it: in a build with any order of argument evaluation
and for every value of `LOG_NDEBUG`, `LOG_ALWAYS_FATAL_IF(cond, ...)` at a live
call site evaluates `cond` once and, exactly when it is non-zero, evaluates
each message argument once, in the order of the build, and calls
`__android_log_assert` with the text of `cond` as the condition, `LOG_TAG` as
the tag and the message (`NULL` when there is none), ending the process; when
`cond` is zero it makes no call and evaluates no message argument.
`LOG_FATAL_IF(cond, ...)` with `LOG_NDEBUG` zero does the same except that the
condition it passes is the text of `cond` after macro expansion, and with
`LOG_NDEBUG` non-zero it leaves the call site as it was, `cond` unevaluated. -/
theorem fatal_if_follows_contract {σ : Type} (B : Backend) (O : ArgOrder) (cfg : Config)
    (cond : Src σ) (va : List (Src σ)) (s : σ) (tr : List Call) :
    (∃ e, LOG_ALWAYS_FATAL_IF cfg cond (userPack va) = some e ∧
      evalExpr B O e ⟨s, tr, false⟩
        = (.void, fatalContract (userOrder O "__android_log_assert" va.length) cfg cond.text
            cond va s tr)) ∧
    (∃ e, LOG_FATAL_IF cfg cond (userPack va) = some e ∧
      evalExpr B O e ⟨s, tr, false⟩
        = (.void, if LOG_NDEBUG cfg ≠ 0 then ⟨s, tr, false⟩
            else fatalContract (userOrder O "__android_log_assert" va.length) cfg
              cond.expanded cond va s tr)) ∧
    (userOrder O "__android_log_assert" va.length).Perm (List.range va.length) := by
  refine ⟨⟨_, LOG_ALWAYS_FATAL_IF_userPack cfg cond va,
    evalExpr_fatal B O cfg cond.text cond va s tr⟩, ?_, userOrder_perm O _ _⟩
  by_cases h : LOG_NDEBUG cfg ≠ 0
  · refine ⟨.castVoid (.lit 0), ?_, ?_⟩
    · simp [LOG_FATAL_IF, h]
    · simp [evalExpr_castVoid, evalExpr_lit, h]
  · have h0 : LOG_NDEBUG cfg = 0 := by
      by_contra hn
      exact h hn
    refine ⟨_, LOG_FATAL_IF_kept cfg cond va h0, ?_⟩
    rw [evalExpr_fatal, if_neg h]
    rfl

/-- C9 as stated fails: with `FLAG_ON` a macro defined as `1`, in a debug build
and whatever the order of argument evaluation, `LOG_ALWAYS_FATAL_IF(FLAG_ON)`
calls `__android_log_assert("FLAG_ON", "Tag", NULL)` and `LOG_FATAL_IF(FLAG_ON)`
calls `__android_log_assert("1", "Tag", NULL)`: not the same call. -/
theorem fatal_if_macro_cond_counterexample :
    LOG_NDEBUG debugBuild = 0 ∧
    ∃ e1 e2, LOG_ALWAYS_FATAL_IF debugBuild flagOn (userPack []) = some e1 ∧
      LOG_FATAL_IF debugBuild flagOn (userPack []) = some e2 ∧
      ∀ O : ArgOrder,
        (evalExpr chattyBackend O e1 ⟨0, [], false⟩).2
          = ⟨0, [⟨"__android_log_assert", [.str "FLAG_ON", .str "Tag", .null]⟩], true⟩ ∧
        (evalExpr chattyBackend O e2 ⟨0, [], false⟩).2
          = ⟨0, [⟨"__android_log_assert", [.str "1", .str "Tag", .null]⟩], true⟩ ∧
        (evalExpr chattyBackend O e2 ⟨0, [], false⟩).2
          ≠ (evalExpr chattyBackend O e1 ⟨0, [], false⟩).2 := by
  refine ⟨by decide, _, _, LOG_ALWAYS_FATAL_IF_userPack debugBuild flagOn [],
    LOG_FATAL_IF_kept debugBuild flagOn [] (by decide), ?_⟩
  intro O
  have h1 := evalExpr_fatal chattyBackend O debugBuild flagOn.text flagOn [] 0 []
  have h2 := evalExpr_fatal chattyBackend O debugBuild flagOn.expanded flagOn.prescanned [] 0 []
  have c1 : fatalContract (userOrder O "__android_log_assert" ([] : List (Src Nat)).length)
      debugBuild flagOn.text flagOn [] 0 []
      = ⟨0, [⟨"__android_log_assert", [.str "FLAG_ON", .str "Tag", .null]⟩], true⟩ := by
    simp [fatalContract, runArgs, runOrdered_nil, flagOn, Val.isZero, tagVal, debugBuild]
  have c2 : fatalContract (userOrder O "__android_log_assert" ([] : List (Src Nat)).length)
      debugBuild flagOn.expanded flagOn.prescanned [] 0 []
      = ⟨0, [⟨"__android_log_assert", [.str "1", .str "Tag", .null]⟩], true⟩ := by
    simp [fatalContract, runArgs, runOrdered_nil, flagOn, Src.prescanned, Val.isZero, tagVal,
      debugBuild]
  rw [c1] at h1
  rw [c2] at h2
  refine ⟨?_, ?_, ?_⟩
  · rw [h1]
  · rw [h2]
  · rw [h1, h2]
    decide

end AndroidLog

namespace AndroidLog

open android_LogPriority

/-- C10: the enumeration gives UNKNOWN=0, DEFAULT=1, VERBOSE=2, DEBUG=3, INFO=4,
WARN=5, ERROR=6, FATAL=7, SILENT=8; the values are pairwise distinct and
strictly increasing in declaration order, and SILENT is greater than every
other priority. -/
theorem priority_values :
    (enumValues 0 android_LogPriority.declared).map Prod.snd = [0, 1, 2, 3, 4, 5, 6, 7, 8] ∧
    (ANDROID_LOG_UNKNOWN.toInt = 0 ∧ ANDROID_LOG_DEFAULT.toInt = 1 ∧
      ANDROID_LOG_VERBOSE.toInt = 2 ∧ ANDROID_LOG_DEBUG.toInt = 3 ∧
      ANDROID_LOG_INFO.toInt = 4 ∧ ANDROID_LOG_WARN.toInt = 5 ∧
      ANDROID_LOG_ERROR.toInt = 6 ∧ ANDROID_LOG_FATAL.toInt = 7 ∧
      ANDROID_LOG_SILENT.toInt = 8) ∧
    (∀ p q : android_LogPriority, p.toInt = q.toInt → p = q) ∧
    ((android_LogPriority.declared.map fun d => d.1.toInt).Pairwise (fun a b => a < b)) ∧
    (∀ p : android_LogPriority, p ≠ ANDROID_LOG_SILENT → p.toInt < ANDROID_LOG_SILENT.toInt) := by
  refine ⟨by decide, by decide, ?_, by decide, ?_⟩
  · intro p q
    cases p <;> cases q <;> decide
  · intro p
    cases p <;> decide

end AndroidLog
